import Mathlib

/-!
# Route reconciler (`pkg/reconciler/route/route.go`)

A shallow embedding of the route reconciler.  Go pointers to owned values are
modelled by the values themselves (`Option` for a pointer that may be nil);
every call of a collaborator whose code lives outside `route.go` is a field of
`Env` (its result) and, when it is a call of the reconciler or of one of its
clients, an entry appended to the call log (`Trace`).  Logging through
`logger` is not modelled.  Collaborators that receive the route pointer are
assumed not to mutate the route unless `route.go` relies on the mutation.
-/

namespace RouteReconciler

/-- Go `error` values that are not nil.  `target` stands for the errors that
implement `traffic.TargetError`. -/
inductive Error where
  | target (name : String)
  | other (msg : String)
  deriving DecidableEq, Repr

/-- The method `Error()` of an error: its message. -/
def Error.message : Error → String
  | .target name => name
  | .other msg => msg

/-- The fields of `apis.URL` that the reconciler reads or writes; `rest`
stands for all remaining fields (zero value `""`). -/
structure URL where
  Scheme : String
  Host : String
  rest : String := ""
  deriving DecidableEq, Repr

/-- One condition of a status. -/
structure Condition where
  type : String
  status : String
  reason : String := ""
  message : String := ""
  deriving DecidableEq, Repr

/-- A traffic target, in the spec and (resolved) in the status. -/
structure TrafficTarget where
  Tag : String
  RevisionName : String
  ConfigurationName : String
  Percent : Nat
  URL : Option URL
  deriving DecidableEq, Repr

/-- The type `duckv1alpha1.Addressable`. -/
structure Addressable where
  URL : Option URL
  Hostname : String
  deriving DecidableEq, Repr

/-- The type `v1alpha1.RouteStatus`. -/
structure RouteStatus where
  Conditions : List Condition
  ObservedGeneration : Int
  URL : Option URL
  DeprecatedDomain : String
  DeprecatedDomainInternal : String
  Address : Option Addressable
  Traffic : List TrafficTarget
  deriving DecidableEq, Repr

/-- The type `v1alpha1.RouteSpec`. -/
structure RouteSpec where
  Traffic : List TrafficTarget
  deriving DecidableEq, Repr

/-- The type `v1alpha1.Route`: object metadata, spec and status. -/
structure Route where
  Name : String
  Namespace : String
  UID : String
  ResourceVersion : String
  Generation : Int
  DeletionTimestamp : Option Nat
  Finalizers : List String
  Labels : List (String × String)
  Annotations : List (String × String)
  Spec : RouteSpec
  Status : RouteStatus
  deriving DecidableEq, Repr

/-- Readiness of an observed certificate. -/
inductive Readiness where
  | Ready
  | NotReady
  | Unknown
  deriving DecidableEq, Repr

/-- The type `netv1alpha1.Certificate`. -/
structure Certificate where
  Name : String
  Namespace : String
  OwnerReferences : List String
  DNSNames : List String
  SecretName : String
  Status : Readiness
  deriving DecidableEq, Repr

/-- The method `IsReady` of a certificate status. -/
def Certificate.IsReady (c : Certificate) : Bool :=
  c.Status == Readiness.Ready

/-- The type `netv1alpha1.IngressTLS`. -/
structure IngressTLS where
  Hosts : List String
  SecretName : String
  SecretNamespace : String
  deriving DecidableEq, Repr

/-- The type `corev1.ObjectReference`. -/
structure ObjectReference where
  APIVersion : String
  Kind : String
  Namespace : String
  Name : String
  deriving DecidableEq, Repr

/-- What `objectRef` reads of a Configuration or Revision (`accessor`), and
for a Revision whether activation is required. -/
structure Accessor where
  Group : String
  Version : String
  Kind : String
  Namespace : String
  Name : String
  ActivationRequired : Bool := false
  deriving DecidableEq, Repr

/-- The type `traffic.Config`; Go maps are association lists, iterated in list
order. -/
structure Config where
  Targets : List (String × List TrafficTarget)
  Configurations : List Accessor
  Revisions : List Accessor
  deriving DecidableEq, Repr

/-- The desired or observed ClusterIngress. -/
structure ClusterIngress where
  Name : String
  Class : String
  TLS : List IngressTLS
  Status : List Condition
  deriving DecidableEq, Repr

/-- The merge patch built by `ensureFinalizer`; `json.Marshal` of it cannot
fail (a map of strings and string lists), so the patch is logged unserialised. -/
structure MergePatch where
  finalizers : List String
  resourceVersion : String
  deriving DecidableEq, Repr

/-- Result of `traffic.BuildTrafficConfiguration`: the Go pair `(t, err)`.  With
a nil error the configuration is present; with an error it may be present or
nil. -/
inductive BuildResult where
  | ok (t : Config)
  | failed (t : Option Config) (err : Error)
  deriving DecidableEq, Repr

/-- Result of `routeLister.Routes(namespace).Get(name)`. -/
inductive GetResult where
  | found (r : Route)
  | notFound
  | failed (e : Error)
  deriving DecidableEq, Repr

/-- Result `(value, err)` of a collaborator that returns a value or an error. -/
inductive Result (α : Type) where
  | ok (a : α)
  | error (e : Error)
  deriving DecidableEq, Repr

/-- Calls of the reconciler's collaborators, in the order they are made: the
methods of the reconciler that are defined outside `route.go`, its clients,
tracker and recorder, and the builders `GetAllDomainsAndTags` and
`MakeClusterIngress`.  A `reconcileCertificate` entry also records what the
call returned. -/
inductive Event where
  | deleteClusterIngressesForRoute (r : Route)
  | RoutesUpdate (ns : String) (r : Route)
  | RoutesPatch (ns name : String) (patch : MergePatch)
  | updateStatus (r : Route)
  | RecorderEvent (r : Route) (reason : String) (err : Error)
  | MarkNeedsUpgrade (ns name : String)
  | Track (ref : ObjectReference) (r : Route)
  | reconcileTargetRevisions (t : Config) (r : Route)
  | reconcilePlaceholderServices (r : Route) (targets : List (String × List TrafficTarget))
  | GetAllDomainsAndTags (r : Route) (names : List String)
  | reconcileCertificate (r : Route) (desired : Certificate) (result : Result Certificate)
  | MakeClusterIngress (r : Route) (t : Config) (tls : List IngressTLS) (cls : String)
  | reconcileClusterIngress (r : Route) (desired : ClusterIngress)
  | updatePlaceholderServices (r : Route) (services : List String) (ci : ClusterIngress)
  deriving DecidableEq, Repr

/-- The call log. -/
abbrev Trace := List Event

/-- The collaborators of the reconciler: configuration read from the context
and the result of every call whose code is outside `route.go`.  The `Mark*`
and `InitializeConditions` methods of the route status act on its conditions,
`SetDefaults` on the spec. -/
structure Env where
  AutoTLS : Bool
  DefaultClusterIngressClass : String
  IngressClassAnnotationKey : String
  IsClusterLocal : Route → Bool
  routeListerGet : String → String → GetResult
  updateStatus : Route → Option Error
  MarkNeedsUpgrade : String → String → Option Error
  SetDefaults : RouteSpec → RouteSpec
  InitializeConditions : List Condition → List Condition
  ConvertUp : Route → Option Error
  DomainNameFromTemplate : Route → String → Result String
  BuildTrafficConfiguration : Route → BuildResult
  Track : ObjectReference → Route → Option Error
  MarkUnknownTrafficError : String → List Condition → List Condition
  MarkBadTrafficTarget : String → List Condition → List Condition
  GetRevisionTrafficTargets : Config → Route → Result (List TrafficTarget)
  MarkTrafficAssigned : List Condition → List Condition
  reconcileTargetRevisions : Config → Route → Option Error
  K8sServiceFullname : Route → String
  RoutesPatch : String → String → MergePatch → Option Error
  reconcilePlaceholderServices :
    Route → List (String × List TrafficTarget) → Result (List String)
  GetAllDomainsAndTags : Route → List String → Result (List (String × String))
  reconcileCertificate : Route → Certificate → Result Certificate
  MarkCertificateProvisionFailed : String → List Condition → List Condition
  MarkCertificateReady : String → List Condition → List Condition
  MarkCertificateNotReady : String → List Condition → List Condition
  MakeIngressTLS : Certificate → List String → IngressTLS
  MakeClusterIngress : Route → Config → List IngressTLS → String → Result ClusterIngress
  reconcileClusterIngress : Route → ClusterIngress → Result ClusterIngress
  PropagateClusterIngressStatus : List Condition → RouteStatus → RouteStatus
  updatePlaceholderServices : Route → List String → ClusterIngress → Option Error
  deleteClusterIngressesForRoute : Route → Option Error
  RoutesUpdate : String → Route → Option Error

/-- The finalizer of the reconciler, `v1alpha1.Resource("routes").String()`. -/
def routeFinalizer : String := "routes.serving.knative.dev"

/-- Apply a condition update to a status. -/
def RouteStatus.withConditions (rs : RouteStatus) (f : List Condition → List Condition) :
    RouteStatus :=
  { rs with Conditions := f rs.Conditions }

/-- Replace the status of a route. -/
def Route.withStatus (r : Route) (rs : RouteStatus) : Route :=
  { r with Status := rs }

/-- `strings.Split(key, "/")` on the characters of the key. -/
def splitSlash : List Char → List (List Char)
  | [] => [[]]
  | c :: cs =>
    match splitSlash cs with
    | [] => [[]]
    | p :: ps => if c = '/' then [] :: p :: ps else (c :: p) :: ps

/-- `cache.SplitMetaNamespaceKey`: `(namespace, name)`, or `none` for the
error "unexpected key format". -/
def SplitMetaNamespaceKey (key : String) : Option (String × String) :=
  match splitSlash key.data with
  | [name] => some ("", String.mk name)
  | [ns, name] => some (String.mk ns, String.mk name)
  | _ => none

/-- `ingressClassForRoute`; a missing annotation reads as the empty string. -/
def ingressClassForRoute (env : Env) (r : Route) : String :=
  let ingressClass := (r.Annotations.lookup env.IngressClassAnnotationKey).getD ""
  if ingressClass ≠ "" then ingressClass else env.DefaultClusterIngressClass

/-- `ToAPIVersionAndKind` composed with the accessors, as used by `objectRef`. -/
def objectRef (a : Accessor) : ObjectReference :=
  let empty := a.Group = "" ∧ a.Version = "" ∧ a.Kind = ""
  let apiVersion :=
    if empty then "" else if a.Group = "" then a.Version else a.Group ++ "/" ++ a.Version
  { APIVersion := apiVersion,
    Kind := if empty then "" else a.Kind,
    Namespace := a.Namespace,
    Name := a.Name }

/-- `getTrafficNames`: the keys of the targets. -/
def getTrafficNames (targets : List (String × List TrafficTarget)) : List String :=
  targets.map Prod.fst

/-- The body of the outer loop of `setTargetsScheme` for one target. -/
def setTargetScheme (dnsNames : List String) (scheme : String) (t : TrafficTarget) :
    TrafficTarget :=
  match t.URL with
  | none => t
  | some u =>
    if dnsNames.any (fun dnsName => u.Host == dnsName) then
      { t with URL := some { u with Scheme := scheme } }
    else t

/-- `setTargetsScheme`. -/
def setTargetsScheme (rs : RouteStatus) (dnsNames : List String) (scheme : String) :
    RouteStatus :=
  { rs with Traffic := rs.Traffic.map (setTargetScheme dnsNames scheme) }

/-- The UTF-8 encoding of one code point. -/
def utf8EncodeNat (c : Nat) : List Nat :=
  if c ≤ 0x7f then [c]
  else if c ≤ 0x7ff then [0xc0 + c / 64, 0x80 + c % 64]
  else if c ≤ 0xffff then [0xe0 + c / 4096, 0x80 + (c / 64) % 64, 0x80 + c % 64]
  else [0xf0 + c / 262144, 0x80 + (c / 4096) % 64, 0x80 + (c / 64) % 64, 0x80 + c % 64]

/-- The bytes of a Go string. -/
def utf8 (s : String) : List Nat :=
  s.data.flatMap fun c => utf8EncodeNat c.toNat

/-- Go's `<=` on strings: lexicographic order of the bytes. -/
def bytesLe : List Nat → List Nat → Bool
  | [], _ => true
  | _ :: _, [] => false
  | a :: as, b :: bs => a < b || (a == b && bytesLe as bs)

/-- Modelled from the spec: the digest of a byte string.  The spec asks for a
stable, deterministic, non-cryptographic digest; this is the Adler-32
checksum, which gives the value 200999684 that `TestMakeCertificates` expects
for the tag "current". -/
def adler32 (bytes : List Nat) : Nat :=
  let ab := bytes.foldl
    (fun (ab : Nat × Nat) byte =>
      let a := (ab.1 + byte) % 65521
      (a, (ab.2 + a) % 65521))
    (1, 0)
  ab.2 * 65536 + ab.1

/-- Modelled from the spec: the digest of a tag, taken over its bytes. -/
def tagDigest (tag : String) : Nat :=
  adler32 (utf8 tag)

/-- Modelled from the spec: the identity of the certificate of a tag; the
source of `resources.MakeCertificates` and of the name helper it uses is
absent.  The empty tag gives `<route>-<uid>`, any other tag
`<route>-<uid>-<hash>` with the decimal digest of the tag. -/
def certificateName (route : Route) (tag : String) : String :=
  let certName := route.Name ++ "-" ++ route.UID
  if tag ≠ "" then certName ++ "-" ++ toString (tagDigest tag) else certName

/-- Insert an entry of the domain map before the first entry whose host is
not smaller. -/
def insertByHost (e : String × String) : List (String × String) → List (String × String)
  | [] => [e]
  | x :: xs => if bytesLe (utf8 e.1) (utf8 x.1) then e :: x :: xs else x :: insertByHost e xs

/-- The entries of the domain map in increasing order of host. -/
def sortByHost (m : List (String × String)) : List (String × String) :=
  m.foldr insertByHost []

/-- Modelled from the spec: `resources.MakeCertificates`, whose source is
absent (only its test is present).  One desired certificate per entry of the
domain map, with the host as its only DNS name and the identity of the tag as
name and secret name, owned by the route; the entries are taken in increasing
order of host, the order `TestMakeCertificates` expects. -/
def MakeCertificates (route : Route) (domainTagMap : List (String × String)) :
    List Certificate :=
  (sortByHost domainTagMap).map fun e =>
    { Name := certificateName route e.2,
      Namespace := route.Namespace,
      OwnerReferences := [route.Name],
      DNSNames := [e.1],
      SecretName := certificateName route e.2,
      Status := Readiness.Unknown }

/-- The body of the loop of `tls` after `reconcileCertificate` returned the
certificate `cert`: the new route status, or `none` when the code dereferences
a nil `r.Status.URL`. -/
def applyCertificate (env : Env) (host : String) (rs : RouteStatus) (cert : Certificate) :
    Option RouteStatus :=
  if cert.IsReady then
    let rs1 := rs.withConditions (env.MarkCertificateReady cert.Name)
    if host ∈ cert.DNSNames then
      match rs1.URL with
      | none => none
      | some u =>
        some (setTargetsScheme { rs1 with URL := some { u with Scheme := "https" } }
          cert.DNSNames "https")
    else
      some (setTargetsScheme rs1 cert.DNSNames "https")
  else
    let rs1 := rs.withConditions (env.MarkCertificateNotReady cert.Name)
    if host ∈ cert.DNSNames then
      some (setTargetsScheme { rs1 with URL := some { Scheme := "http", Host := host } }
        cert.DNSNames "http")
    else
      some (setTargetsScheme rs1 cert.DNSNames "http")

/-- The loop of `tls` over the desired certificates: the returned pair
`(tls, err)`, the route and the call log, or `none` for a nil dereference. -/
def tlsLoop (env : Env) (host : String) :
    List Certificate → Route → List IngressTLS → Trace →
      Option ((Option (List IngressTLS) × Option Error) × Route × Trace)
  | [], r, tls, tr => some ((some tls, none), r, tr)
  | desiredCert :: rest, r, tls, tr =>
    match env.reconcileCertificate r desiredCert with
    | .error err =>
      some ((none, some err),
        r.withStatus (r.Status.withConditions
          (env.MarkCertificateProvisionFailed desiredCert.Name)),
        tr ++ [Event.reconcileCertificate r desiredCert (.error err)])
    | .ok cert =>
      match applyCertificate env host r.Status cert with
      | none => none
      | some rs =>
        tlsLoop env host rest (r.withStatus rs)
          (tls ++ [env.MakeIngressTLS cert cert.DNSNames])
          (tr ++ [Event.reconcileCertificate r desiredCert (.ok cert)])

/-- `Reconciler.tls`: the returned pair `(tls, err)` (a nil slice is `none`),
the route and the call log, or `none` for a nil dereference. -/
def tls (env : Env) (host : String) (r : Route) (traffic : Config) (tr : Trace) :
    Option ((Option (List IngressTLS) × Option Error) × Route × Trace) :=
  if !env.AutoTLS || env.IsClusterLocal r then
    some ((some [], none), r, tr)
  else
    let names := getTrafficNames traffic.Targets
    let tr1 := tr ++ [Event.GetAllDomainsAndTags r names]
    match env.GetAllDomainsAndTags r names with
    | .error err => some ((none, some err), r, tr1)
    | .ok allDomainTagMap =>
      tlsLoop env host (MakeCertificates r allDomainTagMap) r [] tr1

/-- `Reconciler.reconcileDeletion`: the returned error, the route after the
call and the call log. -/
def reconcileDeletion (env : Env) (r : Route) (tr : Trace) : Option Error × Route × Trace :=
  match r.Finalizers with
  | [] => (none, r, tr)
  | first :: rest =>
    if first ≠ routeFinalizer then
      (none, r, tr)
    else
      let tr1 := tr ++ [Event.deleteClusterIngressesForRoute r]
      match env.deleteClusterIngressesForRoute r with
      | some err => (some err, r, tr1)
      | none =>
        let r1 := { r with Finalizers := rest }
        (env.RoutesUpdate r1.Namespace r1, r1, tr1 ++ [Event.RoutesUpdate r1.Namespace r1])

/-- The tracking loops of `configureTraffic`: track every object in turn and
stop at the first error. -/
def trackAll (env : Env) (r : Route) : List Accessor → Trace → Option Error × Trace
  | [], tr => (none, tr)
  | a :: rest, tr =>
    match env.Track (objectRef a) r with
    | some err => (some err, tr ++ [Event.Track (objectRef a) r])
    | none => trackAll env r rest (tr ++ [Event.Track (objectRef a) r])

/-- The block `if t != nil` of `configureTraffic`. -/
def trackConfig (env : Env) (r : Route) (t : Option Config) (tr : Trace) :
    Option Error × Trace :=
  match t with
  | none => (none, tr)
  | some t =>
    match trackAll env r t.Configurations tr with
    | (some err, tr1) => (some err, tr1)
    | (none, tr1) => trackAll env r t.Revisions tr1

/-- `Reconciler.configureTraffic`: the returned pair `(config, err)`, the route
and the call log. -/
def configureTraffic (env : Env) (r : Route) (tr : Trace) :
    (Option Config × Option Error) × Route × Trace :=
  match env.BuildTrafficConfiguration r with
  | .failed t err =>
    match trackConfig env r t tr with
    | (some terr, tr1) => ((none, some terr), r, tr1)
    | (none, tr1) =>
      match err with
      | .other msg =>
        ((none, some (.other msg)),
          r.withStatus (r.Status.withConditions
            (env.MarkUnknownTrafficError (Error.other msg).message)), tr1)
      | .target name =>
        ((none, none),
          r.withStatus (r.Status.withConditions (env.MarkBadTrafficTarget name)), tr1)
  | .ok t =>
    match trackConfig env r (some t) tr with
    | (some terr, tr1) => ((none, some terr), r, tr1)
    | (none, tr1) =>
      match env.GetRevisionTrafficTargets t r with
      | .error err => ((none, some err), r, tr1)
      | .ok targets =>
        ((some t, none),
          r.withStatus
            ({ r.Status with Traffic := targets }.withConditions env.MarkTrafficAssigned),
          tr1)

/-- `Reconciler.ensureFinalizer`: the returned error and the call log; the
route is not modified. -/
def ensureFinalizer (env : Env) (route : Route) (tr : Trace) : Option Error × Trace :=
  if routeFinalizer ∈ route.Finalizers then
    (none, tr)
  else
    let mergePatch : MergePatch :=
      { finalizers := route.Finalizers ++ [routeFinalizer],
        resourceVersion := route.ResourceVersion }
    (env.RoutesPatch route.Namespace route.Name mergePatch,
      tr ++ [Event.RoutesPatch route.Namespace route.Name mergePatch])

/-- The defaulting steps of `reconcile`: `r.SetDefaults` followed by
`r.Status.InitializeConditions`. -/
def applyDefaults (env : Env) (r : Route) : Route :=
  let r1 : Route := { r with Spec := env.SetDefaults r.Spec }
  r1.withStatus (r1.Status.withConditions env.InitializeConditions)

/-- The assignments of `reconcile` that make the route addressable at `host`:
`r.Status.URL` and the cleared `r.Status.DeprecatedDomain`. -/
def setStatusURL (r : Route) (host : String) : Route :=
  r.withStatus
    { r.Status with URL := some { Scheme := "http", Host := host }, DeprecatedDomain := "" }

/-- The objects that `configureTraffic` tracks for a configuration: its
Configurations, then its Revisions; none for a nil configuration. -/
def trackedObjects : Option Config → List Accessor
  | none => []
  | some t => t.Configurations ++ t.Revisions

/-- `Reconciler.reconcile`: the returned error, the route and the call log, or
`none` for a nil dereference. -/
def reconcile (env : Env) (r : Route) (tr : Trace) : Option (Option Error × Route × Trace) :=
  if r.DeletionTimestamp.isSome then
    some (reconcileDeletion env r tr)
  else
    let r2 := applyDefaults env r
    match env.ConvertUp r2 with
    | some err => some (some err, r2, tr)
    | none =>
    match env.DomainNameFromTemplate r2 r2.Name with
    | .error err => some (some err, r2, tr)
    | .ok host =>
    let r3 := setStatusURL r2 host
    match configureTraffic env r3 tr with
    | ((_, some err), r4, tr4) => some (some err, r4, tr4)
    | ((none, none), r4, tr4) => some (none, r4, tr4)
    | ((some traffic, none), r4, tr4) =>
    let tr5 := tr4 ++ [Event.reconcileTargetRevisions traffic r4]
    match env.reconcileTargetRevisions traffic r4 with
    | some err => some (some err, r4, tr5)
    | none =>
    let r5 := r4.withStatus
      { r4.Status with
        DeprecatedDomainInternal := "",
        Address := some
          { URL := some { Scheme := "http", Host := env.K8sServiceFullname r4 },
            Hostname := "" } }
    match ensureFinalizer env r5 tr5 with
    | (some err, tr6) => some (some err, r5, tr6)
    | (none, tr6) =>
    let tr7 := tr6 ++ [Event.reconcilePlaceholderServices r5 traffic.Targets]
    match env.reconcilePlaceholderServices r5 traffic.Targets with
    | .error err => some (some err, r5, tr7)
    | .ok services =>
    match tls env host r5 traffic tr7 with
    | none => none
    | some ((_, some err), r8, tr8) => some (some err, r8, tr8)
    | some ((tlsv, none), r8, tr8) =>
    let cls := ingressClassForRoute env r8
    let tr9 := tr8 ++ [Event.MakeClusterIngress r8 traffic (tlsv.getD []) cls]
    match env.MakeClusterIngress r8 traffic (tlsv.getD []) cls with
    | .error err => some (some err, r8, tr9)
    | .ok desired =>
    let tr10 := tr9 ++ [Event.reconcileClusterIngress r8 desired]
    match env.reconcileClusterIngress r8 desired with
    | .error err => some (some err, r8, tr10)
    | .ok clusterIngress =>
    let r11 := r8.withStatus (env.PropagateClusterIngressStatus clusterIngress.Status r8.Status)
    let tr11 := tr10 ++ [Event.updatePlaceholderServices r11 services clusterIngress]
    match env.updatePlaceholderServices r11 services clusterIngress with
    | some err => some (some err, r11, tr11)
    | none =>
    some (none, r11.withStatus { r11.Status with ObservedGeneration := r11.Generation }, tr11)

/-- `Reconciler.Reconcile`: the returned error and the call log, or `none` for
a nil dereference. -/
def Reconcile (env : Env) (key : String) (tr : Trace) : Option (Option Error × Trace) :=
  match SplitMetaNamespaceKey key with
  | none => some (none, tr)
  | some (ns, name) =>
    match env.routeListerGet ns name with
    | .notFound => some (none, tr)
    | .failed err => some (some err, tr)
    | .found original =>
      let route := original
      match reconcile env route tr with
      | none => none
      | some (reconcileErr, route, tr1) =>
        let written : Option Error × Trace :=
          if original.Status = route.Status then (none, tr1)
          else (env.updateStatus route, tr1 ++ [Event.updateStatus route])
        match written with
        | (some err, tr2) =>
          some (some err, tr2 ++ [Event.RecorderEvent route "UpdateFailed" err])
        | (none, tr2) =>
          match reconcileErr with
          | some rerr => some (some rerr, tr2 ++ [Event.RecorderEvent route "InternalError" rerr])
          | none =>
            if original.Spec ≠ route.Spec then
              some (env.MarkNeedsUpgrade route.Namespace route.Name,
                tr2 ++ [Event.MarkNeedsUpgrade route.Namespace route.Name])
            else
              some (none, tr2)

/-! ## Reading the call log and the effect of a list of certificates -/

/-- The certificates that the `reconcileCertificate` calls of a call log
returned, in call order. -/
def reconciledCertificates : Trace → List Certificate
  | [] => []
  | Event.reconcileCertificate _ _ (Result.ok cert) :: rest =>
    cert :: reconciledCertificates rest
  | _ :: rest => reconciledCertificates rest

/-- The desired certificates that the `reconcileCertificate` calls of a call
log were made for, in call order. -/
def requestedCertificates : Trace → List Certificate
  | [] => []
  | Event.reconcileCertificate _ desired _ :: rest => desired :: requestedCertificates rest
  | _ :: rest => requestedCertificates rest

/-- The collaborator a log entry is a call of. -/
inductive Call where
  | deleteClusterIngressesForRoute
  | RoutesUpdate
  | RoutesPatch
  | updateStatus
  | RecorderEvent
  | MarkNeedsUpgrade
  | Track
  | reconcileTargetRevisions
  | reconcilePlaceholderServices
  | GetAllDomainsAndTags
  | reconcileCertificate
  | MakeClusterIngress
  | reconcileClusterIngress
  | updatePlaceholderServices
  deriving DecidableEq, Repr

/-- The collaborator called by a log entry. -/
def Event.call : Event → Call
  | .deleteClusterIngressesForRoute _ => .deleteClusterIngressesForRoute
  | .RoutesUpdate _ _ => .RoutesUpdate
  | .RoutesPatch _ _ _ => .RoutesPatch
  | .updateStatus _ => .updateStatus
  | .RecorderEvent _ _ _ => .RecorderEvent
  | .MarkNeedsUpgrade _ _ => .MarkNeedsUpgrade
  | .Track _ _ => .Track
  | .reconcileTargetRevisions _ _ => .reconcileTargetRevisions
  | .reconcilePlaceholderServices _ _ => .reconcilePlaceholderServices
  | .GetAllDomainsAndTags _ _ => .GetAllDomainsAndTags
  | .reconcileCertificate _ _ _ => .reconcileCertificate
  | .MakeClusterIngress _ _ _ _ => .MakeClusterIngress
  | .reconcileClusterIngress _ _ => .reconcileClusterIngress
  | .updatePlaceholderServices _ _ _ => .updatePlaceholderServices

/-- The collaborators `reconcile` calls before it calls `tls`, or on the
deletion path. -/
def callsBeforeTLS : List Call :=
  [Call.deleteClusterIngressesForRoute, Call.RoutesUpdate, Call.Track,
    Call.reconcileTargetRevisions, Call.RoutesPatch, Call.reconcilePlaceholderServices]

/-- The collaborators `reconcile` calls after `tls` returned. -/
def callsAfterTLS : List Call :=
  [Call.MakeClusterIngress, Call.reconcileClusterIngress, Call.updatePlaceholderServices]

/-- The scheme that `tls` writes for a URL that the certificate covers. -/
def readinessScheme (c : Certificate) : String :=
  if c.IsReady then "https" else "http"

/-- The scheme of a URL matched against `h` after the loop body ran for the
certificate `c`, from the scheme before. -/
def schemeAfter (h : String) (old : String) (c : Certificate) : String :=
  if h ∈ c.DNSNames then readinessScheme c else old

/-- The loop body of `tls` run for a list of returned certificates in turn. -/
def applyCertificates (env : Env) (host : String) :
    List Certificate → RouteStatus → Option RouteStatus
  | [], rs => some rs
  | c :: cs, rs =>
    match applyCertificate env host rs c with
    | none => none
    | some rs1 => applyCertificates env host cs rs1

/-! ## Exits of `reconcile` -/

/-- The assignments of `reconcile` after the target revisions are reconciled:
the cleared `r.Status.DeprecatedDomainInternal` and `r.Status.Address`. -/
def setStatusAddress (env : Env) (r : Route) : Route :=
  r.withStatus
    { r.Status with
      DeprecatedDomainInternal := "",
      Address := some
        { URL := some { Scheme := "http", Host := env.K8sServiceFullname r },
          Hostname := "" } }

/-- The collaborators `reconcile` calls before `ensureFinalizer`, or on the
deletion path. -/
def callsBeforeFinalizer : List Call :=
  [Call.deleteClusterIngressesForRoute, Call.RoutesUpdate, Call.Track,
    Call.reconcileTargetRevisions]

/-- The calls that create or update a child resource of the route (placeholder
services, certificates, ClusterIngress), with the builders that precede them. -/
def childResourceCalls : List Call :=
  [Call.reconcilePlaceholderServices, Call.GetAllDomainsAndTags, Call.reconcileCertificate,
    Call.MakeClusterIngress, Call.reconcileClusterIngress, Call.updatePlaceholderServices]

/-- The pass of `reconcile` on `r` ran to completion and ended with the route
`r'`: every step succeeded, with the intermediate values named here. -/
def CompletePass (env : Env) (r : Route) (tr : Trace) (r' : Route) : Prop :=
  ∃ (host : String) (traffic : Config) (r4 : Route) (tr4 tr7 tr8 : Trace)
    (services : List String) (tlsv : Option (List IngressTLS)) (r8 : Route)
    (desired ci : ClusterIngress),
    r.DeletionTimestamp.isSome = false ∧
    env.ConvertUp (applyDefaults env r) = none ∧
    env.DomainNameFromTemplate (applyDefaults env r) (applyDefaults env r).Name =
      Result.ok host ∧
    configureTraffic env (setStatusURL (applyDefaults env r) host) tr =
      ((some traffic, none), r4, tr4) ∧
    env.reconcileTargetRevisions traffic r4 = none ∧
    env.reconcilePlaceholderServices (setStatusAddress env r4) traffic.Targets =
      Result.ok services ∧
    tls env host (setStatusAddress env r4) traffic tr7 = some ((tlsv, none), r8, tr8) ∧
    env.MakeClusterIngress r8 traffic (tlsv.getD []) (ingressClassForRoute env r8) =
      Result.ok desired ∧
    env.reconcileClusterIngress r8 desired = Result.ok ci ∧
    env.updatePlaceholderServices
      (r8.withStatus (env.PropagateClusterIngressStatus ci.Status r8.Status)) services ci =
      none ∧
    r' = (r8.withStatus (env.PropagateClusterIngressStatus ci.Status r8.Status)).withStatus
      { env.PropagateClusterIngressStatus ci.Status r8.Status with
        ObservedGeneration := r8.Generation }

/-! ## Dependence on the status the route carried -/

/-- Two routes differ only in their status. -/
def sameObject (a b : Route) : Prop :=
  a.withStatus
      { Conditions := [], ObservedGeneration := 0, URL := none, DeprecatedDomain := "",
        DeprecatedDomainInternal := "", Address := none, Traffic := [] } =
    b.withStatus
      { Conditions := [], ObservedGeneration := 0, URL := none, DeprecatedDomain := "",
        DeprecatedDomainInternal := "", Address := none, Traffic := [] }

/-- The dependency state does not depend on the route status: the values that
the collaborators compute from the route are the same for two routes that
differ only in their status, and `PropagateClusterIngressStatus` only writes
the conditions, from the conditions it finds and the ClusterIngress status. -/
structure StatusBlind (env : Env) : Prop where
  IsClusterLocal : ∀ a b, sameObject a b → env.IsClusterLocal a = env.IsClusterLocal b
  DomainNameFromTemplate : ∀ a b name, sameObject a b →
    env.DomainNameFromTemplate a name = env.DomainNameFromTemplate b name
  BuildTrafficConfiguration : ∀ a b, sameObject a b →
    env.BuildTrafficConfiguration a = env.BuildTrafficConfiguration b
  GetRevisionTrafficTargets : ∀ t a b, sameObject a b →
    env.GetRevisionTrafficTargets t a = env.GetRevisionTrafficTargets t b
  K8sServiceFullname : ∀ a b, sameObject a b →
    env.K8sServiceFullname a = env.K8sServiceFullname b
  GetAllDomainsAndTags : ∀ a b names, sameObject a b →
    env.GetAllDomainsAndTags a names = env.GetAllDomainsAndTags b names
  reconcileCertificate : ∀ a b d, sameObject a b →
    env.reconcileCertificate a d = env.reconcileCertificate b d
  MakeClusterIngress : ∀ a b t tls cls, sameObject a b →
    env.MakeClusterIngress a t tls cls = env.MakeClusterIngress b t tls cls
  reconcileClusterIngress : ∀ a b d, sameObject a b →
    env.reconcileClusterIngress a d = env.reconcileClusterIngress b d
  PropagateClusterIngressStatus : ∀ cs rs,
    env.PropagateClusterIngressStatus cs rs =
      rs.withConditions (fun c =>
        (env.PropagateClusterIngressStatus cs
          { Conditions := c, ObservedGeneration := 0, URL := none, DeprecatedDomain := "",
            DeprecatedDomainInternal := "", Address := none, Traffic := [] }).Conditions)

/-! ## Concrete collaborators and routes

Used to evaluate the reconciler on explicit inputs. -/

/-- An empty route status. -/
def emptyStatus : RouteStatus :=
  { Conditions := [], ObservedGeneration := 0, URL := none, DeprecatedDomain := "",
    DeprecatedDomainInternal := "", Address := none, Traffic := [] }

/-- The route of `certificate_test.go`: name `route`, namespace `default`,
UID `12345`. -/
def testRoute : Route :=
  { Name := "route", Namespace := "default", UID := "12345", ResourceVersion := "1",
    Generation := 1, DeletionTimestamp := none, Finalizers := [], Labels := [],
    Annotations := [], Spec := { Traffic := [] }, Status := emptyStatus }

/-- The domain map of `certificate_test.go`. -/
def dnsNameTagMap : List (String × String) :=
  [("v1.default.example.com", ""), ("v1-current.default.example.com", "current")]

/-- Collaborators that all succeed: conditions are recorded by appending one
entry per `Mark*` call, every client call returns nil, and the certificate and
ClusterIngress reconcilers return what was desired. -/
def okEnv : Env :=
  { AutoTLS := true,
    DefaultClusterIngressClass := "istio.ingress.networking.knative.dev",
    IngressClassAnnotationKey := "networking.knative.dev/ingress.class",
    IsClusterLocal := fun _ => false,
    routeListerGet := fun _ _ => GetResult.notFound,
    updateStatus := fun _ => none,
    MarkNeedsUpgrade := fun _ _ => none,
    SetDefaults := fun spec => spec,
    InitializeConditions := fun cs => cs,
    ConvertUp := fun _ => none,
    DomainNameFromTemplate := fun r name => Result.ok (name ++ "." ++ r.Namespace ++ ".example.com"),
    BuildTrafficConfiguration := fun _ =>
      BuildResult.ok { Targets := [], Configurations := [], Revisions := [] },
    Track := fun _ _ => none,
    MarkUnknownTrafficError := fun msg cs =>
      cs ++ [{ type := "AllTrafficAssigned", status := "False", reason := "Unknown", message := msg }],
    MarkBadTrafficTarget := fun name cs =>
      cs ++ [{ type := "AllTrafficAssigned", status := "False", reason := "Missing", message := name }],
    GetRevisionTrafficTargets := fun _ _ => Result.ok [],
    MarkTrafficAssigned := fun cs => cs ++ [{ type := "AllTrafficAssigned", status := "True" }],
    reconcileTargetRevisions := fun _ _ => none,
    K8sServiceFullname := fun r => r.Name ++ "." ++ r.Namespace ++ ".svc.cluster.local",
    RoutesPatch := fun _ _ _ => none,
    reconcilePlaceholderServices := fun _ targets => Result.ok (targets.map Prod.fst),
    GetAllDomainsAndTags := fun _ _ => Result.ok [],
    reconcileCertificate := fun _ desired => Result.ok desired,
    MarkCertificateProvisionFailed := fun name cs =>
      cs ++ [{ type := "CertificateProvisioned", status := "False", reason := "Failed", message := name }],
    MarkCertificateReady := fun name cs =>
      cs ++ [{ type := "CertificateProvisioned", status := "True", message := name }],
    MarkCertificateNotReady := fun name cs =>
      cs ++ [{ type := "CertificateProvisioned", status := "Unknown", message := name }],
    MakeIngressTLS := fun cert hosts =>
      { Hosts := hosts, SecretName := cert.SecretName, SecretNamespace := cert.Namespace },
    MakeClusterIngress := fun r _ tls cls =>
      Result.ok { Name := r.Name, Class := cls, TLS := tls, Status := [] },
    reconcileClusterIngress := fun _ desired => Result.ok desired,
    PropagateClusterIngressStatus := fun cs rs => { rs with Conditions := rs.Conditions ++ cs },
    updatePlaceholderServices := fun _ _ _ => none,
    deleteClusterIngressesForRoute := fun _ => none,
    RoutesUpdate := fun _ _ => none }

/-- A route being deleted whose finalizers are the route finalizer followed by
another one. -/
def deletingRoute : Route :=
  { testRoute with
    DeletionTimestamp := some 1, Finalizers := [routeFinalizer, "other/finalizer"] }

/-- A route being deleted whose route finalizer is not first. -/
def deferredRoute : Route :=
  { testRoute with
    DeletionTimestamp := some 1, Finalizers := ["other/finalizer", routeFinalizer] }

/-- Collaborators whose ClusterIngress deletion fails. -/
def deleteFailsEnv : Env :=
  { okEnv with deleteClusterIngressesForRoute := fun _ => some (Error.other "delete failed") }

/-- Collaborators with automatic TLS disabled. -/
def noTLSEnv : Env :=
  { okEnv with AutoTLS := false }

/-- Domain map with a primary host and a host for the tag `b`. -/
def twoDomains : List (String × String) :=
  [("a.example.com", ""), ("b.example.com", "b")]

/-- Collaborators for a route with the two domains of `twoDomains`: the
certificate of the primary host is Ready, every other one is not. -/
def twoCertsEnv : Env :=
  { okEnv with
    GetAllDomainsAndTags := fun _ _ => Result.ok twoDomains,
    reconcileCertificate := fun _ desired =>
      Result.ok
        { desired with
          Status := if desired.DNSNames = ["a.example.com"] then Readiness.Ready
            else Readiness.NotReady } }

/-- A target of the test route with the given tag, URL scheme and host. -/
def targetAt (tag scheme host : String) : TrafficTarget :=
  { Tag := tag, RevisionName := "rev", ConfigurationName := "", Percent := 50,
    URL := some { Scheme := scheme, Host := host } }

/-- The test route with a primary URL and one resolved target per domain; the
target of the tag `b` starts with scheme `https`. -/
def twoTargetsRoute : Route :=
  { testRoute with
    Status :=
      { emptyStatus with
        URL := some { Scheme := "http", Host := "a.example.com" },
        Traffic := [targetAt "" "http" "a.example.com", targetAt "b" "https" "b.example.com"] } }

/-- The traffic configuration passed to `tls` for `twoTargetsRoute`. -/
def twoTargetsConfig : Config :=
  { Targets := [("", []), ("b", [])], Configurations := [], Revisions := [] }

/-- The desired certificate of the primary host of `twoTargetsRoute`. -/
def desiredA : Certificate :=
  { Name := "route-12345", Namespace := "default", OwnerReferences := ["route"],
    DNSNames := ["a.example.com"], SecretName := "route-12345", Status := Readiness.Unknown }

/-- The desired certificate of the tag `b` of `twoTargetsRoute`. -/
def desiredB : Certificate :=
  { Name := "route-12345-6488163", Namespace := "default", OwnerReferences := ["route"],
    DNSNames := ["b.example.com"], SecretName := "route-12345-6488163",
    Status := Readiness.Unknown }

/-- The route `twoTargetsRoute` after the Ready certificate of the primary host. -/
def twoTargetsRouteMid : Route :=
  { testRoute with
    Status :=
      { emptyStatus with
        Conditions := [{ type := "CertificateProvisioned", status := "True", message := "route-12345" }],
        URL := some { Scheme := "https", Host := "a.example.com" },
        Traffic := [targetAt "" "https" "a.example.com", targetAt "b" "https" "b.example.com"] } }

/-- The route `twoTargetsRoute` after both certificates. -/
def twoTargetsRouteAfter : Route :=
  { testRoute with
    Status :=
      { emptyStatus with
        Conditions :=
          [{ type := "CertificateProvisioned", status := "True", message := "route-12345" },
            { type := "CertificateProvisioned", status := "Unknown",
              message := "route-12345-6488163" }],
        URL := some { Scheme := "https", Host := "a.example.com" },
        Traffic := [targetAt "" "https" "a.example.com", targetAt "b" "http" "b.example.com"] } }

/-- The call log of `tls` on `twoTargetsRoute`. -/
def twoTargetsTrace : Trace :=
  [Event.GetAllDomainsAndTags twoTargetsRoute ["", "b"],
    Event.reconcileCertificate twoTargetsRoute desiredA
      (Result.ok { desiredA with Status := Readiness.Ready }),
    Event.reconcileCertificate twoTargetsRouteMid desiredB
      (Result.ok { desiredB with Status := Readiness.NotReady })]

/-- The TLS bindings of `tls` on `twoTargetsRoute`. -/
def twoTargetsBindings : List IngressTLS :=
  [{ Hosts := ["a.example.com"], SecretName := "route-12345", SecretNamespace := "default" },
    { Hosts := ["b.example.com"], SecretName := "route-12345-6488163",
      SecretNamespace := "default" }]

/-- Collaborators as `twoCertsEnv`, except that reconciling any certificate
other than the one of the primary host fails. -/
def certFailsEnv : Env :=
  { twoCertsEnv with
    reconcileCertificate := fun _ desired =>
      if desired.DNSNames = ["a.example.com"] then
        Result.ok { desired with Status := Readiness.Ready }
      else Result.error (Error.other "certificate failed") }

/-- The route `twoTargetsRoute` after `tls` with `certFailsEnv`: the first
certificate was applied, the second is marked as failed. -/
def certFailsRouteAfter : Route :=
  { testRoute with
    Status :=
      { emptyStatus with
        Conditions :=
          [{ type := "CertificateProvisioned", status := "True", message := "route-12345" },
            { type := "CertificateProvisioned", status := "False", reason := "Failed",
              message := "route-12345-6488163" }],
        URL := some { Scheme := "https", Host := "a.example.com" },
        Traffic := [targetAt "" "https" "a.example.com", targetAt "b" "https" "b.example.com"] } }

/-- The call log of `tls` on `twoTargetsRoute` with `certFailsEnv`. -/
def certFailsTrace : Trace :=
  [Event.GetAllDomainsAndTags twoTargetsRoute ["", "b"],
    Event.reconcileCertificate twoTargetsRoute desiredA
      (Result.ok { desiredA with Status := Readiness.Ready }),
    Event.reconcileCertificate twoTargetsRouteMid desiredB
      (Result.error (Error.other "certificate failed"))]

/-- A configuration that refers to one Configuration and one Revision. -/
def oneConfig : Config :=
  { Targets := [("", [])],
    Configurations :=
      [{ Group := "serving.knative.dev", Version := "v1alpha1", Kind := "Configuration",
         Namespace := "default", Name := "config" }],
    Revisions :=
      [{ Group := "serving.knative.dev", Version := "v1alpha1", Kind := "Revision",
         Namespace := "default", Name := "config-00001" }] }

/-- Collaborators whose resolver reports the target `config` as not ready,
together with the configuration it compiled. -/
def softErrorEnv : Env :=
  { okEnv with
    BuildTrafficConfiguration := fun _ =>
      BuildResult.failed (some oneConfig) (Error.target "config") }

/-- Collaborators whose resolver fails with an error that is not a
`TargetError`. -/
def hardErrorEnv : Env :=
  { okEnv with
    BuildTrafficConfiguration := fun _ => BuildResult.failed none (Error.other "timeout") }

/-- Collaborators as `okEnv` whose route lister holds exactly the route `r`. -/
def listerEnv (r : Route) : Env :=
  { okEnv with
    routeListerGet := fun ns name =>
      if ns = r.Namespace ∧ name = r.Name then GetResult.found r else GetResult.notFound }

/-- Collaborators whose patch of the route fails. -/
def patchFailsEnv : Env :=
  { okEnv with RoutesPatch := fun _ _ _ => some (Error.other "conflict") }

/-- The outcome of `reconcile` on the test route when the patch fails. -/
def patchFailsOut : Option Error × Route × Trace :=
  (reconcile patchFailsEnv testRoute []).getD (none, testRoute, [])

/-- The outcome of `reconcile` on the test route when every collaborator
succeeds. -/
def okOut : Option Error × Route × Trace :=
  (reconcile okEnv testRoute []).getD (none, testRoute, [])

/-- The patch that adds the route finalizer to the test route. -/
def testPatch : MergePatch :=
  { finalizers := [routeFinalizer], resourceVersion := "1" }

/-- A status left by an earlier pass: recorded generation, address and one
resolved target. -/
def staleStatus : RouteStatus :=
  { emptyStatus with
    ObservedGeneration := 1,
    Address := some
      { URL := some { Scheme := "http", Host := "route.default.svc.cluster.local" },
        Hostname := "" },
    Traffic := [targetAt "" "http" "route.default.example.com"] }

/-- The test route carrying `staleStatus`. -/
def staleRoute : Route :=
  { testRoute with Status := staleStatus }

/-- The outcome of `reconcile` on `staleRoute` when every collaborator
succeeds. -/
def staleOut : Option Error × Route × Trace :=
  (reconcile okEnv staleRoute []).getD (none, staleRoute, [])

/-- Set the condition of a type: any condition of that type is replaced. -/
def markCondition (type status message : String) (cs : List Condition) : List Condition :=
  cs.filter (fun c => c.type != type) ++ [{ type := type, status := status, message := message }]

/-- Collaborators that all succeed, with automatic TLS disabled and conditions
kept as a set keyed by type: every `Mark*` call replaces the condition of its
type and leaves the conditions of other types. -/
def managedEnv : Env :=
  { okEnv with
    AutoTLS := false,
    MarkUnknownTrafficError := fun msg => markCondition "AllTrafficAssigned" "False" msg,
    MarkBadTrafficTarget := fun name => markCondition "AllTrafficAssigned" "False" name,
    MarkTrafficAssigned := markCondition "AllTrafficAssigned" "True" "",
    MarkCertificateProvisionFailed := fun name =>
      markCondition "CertificateProvisioned" "False" name,
    MarkCertificateReady := fun name => markCondition "CertificateProvisioned" "True" name,
    MarkCertificateNotReady := fun name =>
      markCondition "CertificateProvisioned" "Unknown" name,
    PropagateClusterIngressStatus := fun _ rs =>
      rs.withConditions (markCondition "IngressReady" "True" "") }

/-- The test route carrying a failed certificate condition from an earlier
pass. -/
def certConditionRoute : Route :=
  { testRoute with
    Status :=
      { emptyStatus with
        Conditions :=
          [{ type := "CertificateProvisioned", status := "False", message := "route-12345" }] } }

/-! ## Deletion workflow -/

/-- A route with a deletion marker is handled by `reconcileDeletion` alone. -/
theorem reconcile_of_deletionTimestamp (env : Env) (r : Route) (tr : Trace)
    (hdel : r.DeletionTimestamp.isSome = true) :
    reconcile env r tr = some (reconcileDeletion env r tr) := by
  simp [reconcile, hdel]

/-- C1: for a route with a deletion marker whose first finalizer is the route
finalizer, when deleting the ClusterIngresses fails with `e`, `reconcileDeletion`
(and so `reconcile`) returns `e`, logs the delete call and no update of the
route, and returns the route unchanged, so its finalizer list is as it was with
the token first; and for every route, a finalizer list that differs after
`reconcileDeletion` implies that the deletion returned no error. -/
theorem reconcileDeletion_delete_error_keeps_finalizer (env : Env) (r : Route) (tr : Trace)
    (e : Error)
    (hdel : r.DeletionTimestamp.isSome = true)
    (hfirst : r.Finalizers.head? = some routeFinalizer)
    (herr : env.deleteClusterIngressesForRoute r = some e) :
    reconcileDeletion env r tr = (some e, r, tr ++ [Event.deleteClusterIngressesForRoute r]) ∧
    reconcile env r tr = some (some e, r, tr ++ [Event.deleteClusterIngressesForRoute r]) ∧
    (reconcileDeletion env r tr).2.1.Finalizers = r.Finalizers ∧
    (reconcileDeletion env r tr).2.1.Finalizers.head? = some routeFinalizer ∧
    (∀ ns r1, Event.RoutesUpdate ns r1 ∈ (reconcileDeletion env r tr).2.2 →
      Event.RoutesUpdate ns r1 ∈ tr) ∧
    (∀ (r0 : Route) (tr0 : Trace),
      (reconcileDeletion env r0 tr0).2.1.Finalizers ≠ r0.Finalizers →
      env.deleteClusterIngressesForRoute r0 = none) := by
  have hmain : reconcileDeletion env r tr
      = (some e, r, tr ++ [Event.deleteClusterIngressesForRoute r]) := by
    unfold reconcileDeletion
    cases hf : r.Finalizers with
    | nil => simp [hf] at hfirst
    | cons first rest =>
      simp only [hf, List.head?_cons, Option.some.injEq] at hfirst
      simp [hfirst, herr]
  refine ⟨hmain, ?_, ?_, ?_, ?_, ?_⟩
  · rw [reconcile_of_deletionTimestamp env r tr hdel, hmain]
  · rw [hmain]
  · rw [hmain]; exact hfirst
  · intro ns r1; rw [hmain]; simp
  · intro r0 tr0 hne
    cases hd : env.deleteClusterIngressesForRoute r0 with
    | none => rfl
    | some e0 =>
      exfalso
      apply hne
      unfold reconcileDeletion
      cases hf : r0.Finalizers with
      | nil => simp [hf]
      | cons first rest =>
        by_cases h : first = routeFinalizer
        · simp [h, hd, hf]
        · simp [h, hf]

/-- C2: for a route with a deletion marker whose finalizer list is empty or
does not start with the route finalizer (also when the token occurs later),
`reconcileDeletion` (and so `reconcile`) returns nil and leaves the route and
the call log as they were: no ClusterIngress is deleted, no update is issued,
the finalizer list is unchanged. -/
theorem reconcileDeletion_not_first_noop (env : Env) (r : Route) (tr : Trace)
    (hdel : r.DeletionTimestamp.isSome = true)
    (hfirst : r.Finalizers = [] ∨ r.Finalizers.head? ≠ some routeFinalizer) :
    reconcileDeletion env r tr = (none, r, tr) ∧
    reconcile env r tr = some (none, r, tr) ∧
    (reconcileDeletion env r tr).2.1.Finalizers = r.Finalizers ∧
    (reconcileDeletion env r tr).2.2 = tr := by
  have hmain : reconcileDeletion env r tr = (none, r, tr) := by
    unfold reconcileDeletion
    cases hf : r.Finalizers with
    | nil => rfl
    | cons first rest =>
      have hne : first ≠ routeFinalizer := by
        rcases hfirst with h | h
        · simp [hf] at h
        · simpa [hf] using h
      simp [hne]
  refine ⟨hmain, ?_, ?_, ?_⟩
  · rw [reconcile_of_deletionTimestamp env r tr hdel, hmain]
  · rw [hmain]
  · rw [hmain]

/-- C3: for a route with a deletion marker whose first finalizer is the route
finalizer, when deleting the ClusterIngresses succeeds, `reconcileDeletion`
(and so `reconcile`) logs the delete call and then exactly one update of the
route with the finalizer list without its first entry (the other finalizers
kept in order; a list holding only the token becomes empty), and returns the
result of that update. -/
theorem reconcileDeletion_success_pops_finalizer (env : Env) (r : Route) (tr : Trace)
    (hdel : r.DeletionTimestamp.isSome = true)
    (hfirst : r.Finalizers.head? = some routeFinalizer)
    (hok : env.deleteClusterIngressesForRoute r = none) :
    reconcileDeletion env r tr =
      (env.RoutesUpdate r.Namespace { r with Finalizers := r.Finalizers.tail },
        { r with Finalizers := r.Finalizers.tail },
        tr ++ [Event.deleteClusterIngressesForRoute r,
          Event.RoutesUpdate r.Namespace { r with Finalizers := r.Finalizers.tail }]) ∧
    reconcile env r tr = some (reconcileDeletion env r tr) ∧
    r.Finalizers = routeFinalizer :: (reconcileDeletion env r tr).2.1.Finalizers ∧
    (r.Finalizers = [routeFinalizer] → (reconcileDeletion env r tr).2.1.Finalizers = []) := by
  have hmain : reconcileDeletion env r tr =
      (env.RoutesUpdate r.Namespace { r with Finalizers := r.Finalizers.tail },
        { r with Finalizers := r.Finalizers.tail },
        tr ++ [Event.deleteClusterIngressesForRoute r,
          Event.RoutesUpdate r.Namespace { r with Finalizers := r.Finalizers.tail }]) := by
    unfold reconcileDeletion
    cases hf : r.Finalizers with
    | nil => simp [hf] at hfirst
    | cons first rest =>
      simp only [hf, List.head?_cons, Option.some.injEq] at hfirst
      simp [hfirst, hok]
  refine ⟨hmain, reconcile_of_deletionTimestamp env r tr hdel, ?_, ?_⟩
  · rw [hmain]
    cases hf : r.Finalizers with
    | nil => simp [hf] at hfirst
    | cons first rest =>
      simp only [hf, List.head?_cons, Option.some.injEq] at hfirst
      simp [hfirst]
  · intro h1
    rw [hmain]
    simp [h1]

/-- Witness of C1 on `deletingRoute` with a failing delete. -/
theorem reconcileDeletion_delete_error_keeps_finalizer_witness :
    reconcileDeletion deleteFailsEnv deletingRoute [] =
        (some (Error.other "delete failed"), deletingRoute,
          [Event.deleteClusterIngressesForRoute deletingRoute]) ∧
      reconcile deleteFailsEnv deletingRoute [] =
        some (some (Error.other "delete failed"), deletingRoute,
          [Event.deleteClusterIngressesForRoute deletingRoute]) :=
  have h := reconcileDeletion_delete_error_keeps_finalizer deleteFailsEnv deletingRoute []
    (Error.other "delete failed") rfl rfl rfl
  ⟨h.1, h.2.1⟩

/-- Witness of C2 on `deferredRoute`, whose token is second. -/
theorem reconcileDeletion_not_first_noop_witness :
    routeFinalizer ∈ deferredRoute.Finalizers ∧
      reconcileDeletion okEnv deferredRoute [] = (none, deferredRoute, []) :=
  ⟨by decide,
    (reconcileDeletion_not_first_noop okEnv deferredRoute [] rfl (Or.inr (by decide))).1⟩

/-- Witness of C3 on `deletingRoute`: the other finalizer is kept. -/
theorem reconcileDeletion_success_pops_finalizer_witness :
    deletingRoute.Finalizers = [routeFinalizer, "other/finalizer"] ∧
      (reconcileDeletion okEnv deletingRoute []).2.1.Finalizers = ["other/finalizer"] :=
  have h := reconcileDeletion_success_pops_finalizer okEnv deletingRoute [] rfl rfl rfl
  ⟨rfl, by rw [h.1]; rfl⟩

/-! ## Finalizer and TLS policy -/

/-- C9: when automatic TLS is disabled or the route is cluster-local, `tls`
returns an empty (non-nil) list of bindings and no error, and leaves the call
log (no domain computation, no certificate reconciled) and the route, hence
its whole status, unchanged. -/
theorem tls_policy_short_circuit (env : Env) (host : String) (r : Route) (traffic : Config)
    (tr : Trace) (h : env.AutoTLS = false ∨ env.IsClusterLocal r = true) :
    tls env host r traffic tr = some ((some [], none), r, tr) := by
  unfold tls
  rcases h with h | h <;> simp [h]

/-- Witness of C9 with automatic TLS disabled. -/
theorem tls_policy_short_circuit_witness :
    tls noTLSEnv "route.default.example.com" testRoute
      { Targets := [("", [])], Configurations := [], Revisions := [] } [] =
      some ((some [], none), testRoute, []) :=
  tls_policy_short_circuit noTLSEnv "route.default.example.com" testRoute
    { Targets := [("", [])], Configurations := [], Revisions := [] } [] (Or.inl rfl)

/-- C10: when the finalizer list contains the route finalizer, `ensureFinalizer`
returns nil and logs no call; otherwise it logs exactly one patch, whose
finalizers are the existing ones in order followed by the token, which then
occurs exactly once, and returns the result of the patch; on a route carrying
the patched list `ensureFinalizer` is a no-op. -/
theorem ensureFinalizer_idempotent (env : Env) (route : Route) (tr : Trace) :
    (routeFinalizer ∈ route.Finalizers → ensureFinalizer env route tr = (none, tr)) ∧
    (routeFinalizer ∉ route.Finalizers →
      ensureFinalizer env route tr =
        (env.RoutesPatch route.Namespace route.Name
            { finalizers := route.Finalizers ++ [routeFinalizer],
              resourceVersion := route.ResourceVersion },
          tr ++ [Event.RoutesPatch route.Namespace route.Name
            { finalizers := route.Finalizers ++ [routeFinalizer],
              resourceVersion := route.ResourceVersion }]) ∧
      (route.Finalizers ++ [routeFinalizer]).count routeFinalizer = 1 ∧
      ∀ tr1 : Trace,
        ensureFinalizer env { route with Finalizers := route.Finalizers ++ [routeFinalizer] } tr1
          = (none, tr1)) := by
  refine ⟨fun h => by simp [ensureFinalizer, h], fun h => ⟨by simp [ensureFinalizer, h], ?_, ?_⟩⟩
  · rw [List.count_append, List.count_eq_zero_of_not_mem h]
    simp
  · intro tr1
    simp [ensureFinalizer]

/-- Witness of C10: the test route has no finalizer, so one patch is issued. -/
theorem ensureFinalizer_idempotent_witness :
    ensureFinalizer okEnv testRoute [] =
      (none, [Event.RoutesPatch "default" "route"
        { finalizers := [routeFinalizer], resourceVersion := "1" }]) :=
  ((ensureFinalizer_idempotent okEnv testRoute []).2 (by decide)).1

/-! ## Certificate identities -/

/-- Inserting an entry adds exactly that entry. -/
theorem mem_insertByHost (e x : String × String) (m : List (String × String)) :
    x ∈ insertByHost e m ↔ x = e ∨ x ∈ m := by
  induction m with
  | nil => simp [insertByHost]
  | cons y ys ih =>
    unfold insertByHost
    split
    · simp
    · simp only [List.mem_cons, ih]
      tauto

/-- Sorting the domain map keeps its entries. -/
theorem mem_sortByHost (x : String × String) (m : List (String × String)) :
    x ∈ sortByHost m ↔ x ∈ m := by
  induction m with
  | nil => simp [sortByHost]
  | cons y ys ih =>
    have : sortByHost (y :: ys) = insertByHost y (sortByHost ys) := rfl
    rw [this, mem_insertByHost, ih]
    simp

/-- C5: every certificate made by `MakeCertificates` has its name equal to its
secret name and comes from one entry `(host, tag)` of the domain map, with the
host as only DNS name and the identity of the tag as name; every entry yields
such a certificate; the identity is `<route>-<uid>` for the empty tag and
`<route>-<uid>-<hash>` with the decimal digest of the tag otherwise, and
depends only on the route name, the UID and the tag; on the route and map of
`TestMakeCertificates` the certificates are `route-12345-200999684` for
`v1-current.default.example.com` and `route-12345` for `v1.default.example.com`. -/
theorem MakeCertificates_identity (route : Route) (m : List (String × String)) :
    (∀ c ∈ MakeCertificates route m,
      c.Name = c.SecretName ∧
      ∃ e ∈ m, c.DNSNames = [e.1] ∧ c.Name = certificateName route e.2) ∧
    (∀ e ∈ m, ∃ c ∈ MakeCertificates route m,
      c.DNSNames = [e.1] ∧ c.Name = certificateName route e.2 ∧
      c.SecretName = certificateName route e.2) ∧
    certificateName route "" = route.Name ++ "-" ++ route.UID ∧
    (∀ tag : String, tag ≠ "" →
      certificateName route tag =
        route.Name ++ "-" ++ route.UID ++ "-" ++ toString (tagDigest tag)) ∧
    (∀ (other : Route) (tag : String), other.Name = route.Name → other.UID = route.UID →
      certificateName other tag = certificateName route tag) ∧
    (MakeCertificates testRoute dnsNameTagMap).map
        (fun c => (c.Name, c.SecretName, c.DNSNames)) =
      [("route-12345-200999684", "route-12345-200999684", ["v1-current.default.example.com"]),
        ("route-12345", "route-12345", ["v1.default.example.com"])] := by
  refine ⟨?_, ?_, ?_, ?_, ?_, ?_⟩
  · intro c hc
    simp only [MakeCertificates, List.mem_map] at hc
    obtain ⟨e, he, rfl⟩ := hc
    exact ⟨rfl, e, (mem_sortByHost e m).1 he, rfl, rfl⟩
  · intro e he
    have hmem := List.mem_map_of_mem
      (fun e : String × String =>
        ({ Name := certificateName route e.2,
           Namespace := route.Namespace,
           OwnerReferences := [route.Name],
           DNSNames := [e.1],
           SecretName := certificateName route e.2,
           Status := Readiness.Unknown } : Certificate))
      ((mem_sortByHost e m).2 he)
    exact ⟨_, hmem, rfl, rfl, rfl⟩
  · simp [certificateName]
  · intro tag htag
    simp [certificateName, htag]
  · intro other tag hn hu
    simp [certificateName, hn, hu]
  · decide

/-! ## Scheme promotion per host -/

/-- The log entries other than a successful `reconcileCertificate` are skipped. -/
theorem reconciledCertificates_append (a b : Trace) :
    reconciledCertificates (a ++ b) = reconciledCertificates a ++ reconciledCertificates b := by
  induction a with
  | nil => rfl
  | cons e rest ih =>
    cases e with
    | reconcileCertificate r d res =>
      cases res <;> simp [reconciledCertificates, ih]
    | _ => simp [reconciledCertificates, ih]

/-- A returning run of the loop of `tls` extends the call log, and its final
status is the loop body applied to the certificates the log records. -/
theorem tlsLoop_ok (env : Env) (host : String) (desired : List Certificate) :
    ∀ (r : Route) (acc : List IngressTLS) (tr : Trace) (b : Option (List IngressTLS))
      (r' : Route) (tr' : Trace),
      tlsLoop env host desired r acc tr = some ((b, none), r', tr') →
      ∃ ext, tr' = tr ++ ext ∧
        applyCertificates env host (reconciledCertificates ext) r.Status = some r'.Status := by
  induction desired with
  | nil =>
    intro r acc tr b r' tr' h
    simp only [tlsLoop, Option.some.injEq, Prod.mk.injEq] at h
    obtain ⟨-, rfl, rfl⟩ := h
    exact ⟨[], by simp, rfl⟩
  | cons d rest ih =>
    intro r acc tr b r' tr' h
    unfold tlsLoop at h
    cases hrc : env.reconcileCertificate r d with
    | error err => simp [hrc] at h
    | ok cert =>
      simp only [hrc] at h
      cases hap : applyCertificate env host r.Status cert with
      | none => simp [hap] at h
      | some rs =>
        simp only [hap] at h
        obtain ⟨ext, hext, happ⟩ := ih _ _ _ _ _ _ h
        refine ⟨Event.reconcileCertificate r d (Result.ok cert) :: ext, ?_, ?_⟩
        · rw [hext]; simp
        · simp only [reconciledCertificates, applyCertificates, hap]
          simpa [Route.withStatus] using happ

/-- When no host is shared by two different certificates of the list, the
scheme a URL matched against `h` ends with is decided by the readiness of the
certificates that cover `h`. -/
theorem foldl_schemeAfter_spec (h : String) (cs : List Certificate) :
    ∀ old : String,
      (∀ c1 ∈ cs, ∀ c2 ∈ cs, c1 ≠ c2 → ∀ x, x ∈ c1.DNSNames → x ∉ c2.DNSNames) →
      (∀ c ∈ cs, h ∈ c.DNSNames → c.IsReady = true → cs.foldl (schemeAfter h) old = "https") ∧
      (∀ c ∈ cs, h ∈ c.DNSNames → c.IsReady = false → cs.foldl (schemeAfter h) old = "http") ∧
      ((∀ c ∈ cs, h ∉ c.DNSNames) → cs.foldl (schemeAfter h) old = old) := by
  induction cs with
  | nil => intro old _; simp
  | cons c rest ih =>
    intro old hdisj
    have hrest : ∀ c1 ∈ rest, ∀ c2 ∈ rest, c1 ≠ c2 → ∀ x, x ∈ c1.DNSNames → x ∉ c2.DNSNames :=
      fun c1 h1 c2 h2 => hdisj c1 (List.mem_cons_of_mem _ h1) c2 (List.mem_cons_of_mem _ h2)
    obtain ⟨ihR, ihN, ihO⟩ := ih (schemeAfter h old c) hrest
    have hsame : ∀ c2 ∈ rest, h ∈ c.DNSNames → h ∈ c2.DNSNames → c2 = c := by
      intro c2 h2 hc hc2
      by_contra hne
      exact hdisj c2 (List.mem_cons_of_mem _ h2) c (List.mem_cons_self _ _) hne h hc2 hc
    have hhead : ∀ s : String, h ∈ c.DNSNames → readinessScheme c = s →
        rest.foldl (schemeAfter h) (schemeAfter h old c) = s := by
      intro s hc hs
      by_cases hex : ∃ c2 ∈ rest, h ∈ c2.DNSNames
      · obtain ⟨c2, h2, hc2⟩ := hex
        have heq := hsame c2 h2 hc hc2
        cases hr : c.IsReady with
        | true =>
          rw [ihR c2 h2 hc2 (by rw [heq]; exact hr)]
          simp [readinessScheme, hr] at hs
          exact hs
        | false =>
          rw [ihN c2 h2 hc2 (by rw [heq]; exact hr)]
          simp [readinessScheme, hr] at hs
          exact hs
      · have hnone : ∀ c2 ∈ rest, h ∉ c2.DNSNames := fun c2 h2 hc2 => hex ⟨c2, h2, hc2⟩
        rw [ihO hnone]
        simp [schemeAfter, hc, hs]
    refine ⟨?_, ?_, ?_⟩
    · intro c0 hc0 hcov hready
      simp only [List.foldl_cons]
      rcases List.mem_cons.1 hc0 with rfl | hin
      · exact hhead "https" hcov (by simp [readinessScheme, hready])
      · exact ihR c0 hin hcov hready
    · intro c0 hc0 hcov hready
      simp only [List.foldl_cons]
      rcases List.mem_cons.1 hc0 with rfl | hin
      · exact hhead "http" hcov (by simp [readinessScheme, hready])
      · exact ihN c0 hin hcov hready
    · intro hnone
      simp only [List.foldl_cons]
      rw [ihO (fun c2 h2 => hnone c2 (List.mem_cons_of_mem _ h2))]
      simp [schemeAfter, hnone c (List.mem_cons_self _ _)]

/-- One run of the loop body: the primary URL stays present with the scheme of
`schemeAfter`, and every target goes through `setTargetScheme`. -/
theorem applyCertificate_spec (env : Env) (host : String) (rs rs' : RouteStatus)
    (c : Certificate) (u : URL) (hurl : rs.URL = some u)
    (h : applyCertificate env host rs c = some rs') :
    (∃ u', rs'.URL = some u' ∧ u'.Scheme = schemeAfter host u.Scheme c) ∧
    rs'.Traffic = rs.Traffic.map (setTargetScheme c.DNSNames (readinessScheme c)) := by
  unfold applyCertificate at h
  cases hr : c.IsReady <;> by_cases hc : host ∈ c.DNSNames <;>
    simp [hr, hc, hurl, RouteStatus.withConditions, setTargetsScheme] at h <;>
    subst h <;>
    simp [schemeAfter, readinessScheme, hr, hc, hurl]

/-- The loop body run for a list of certificates: the primary URL stays present
and its scheme is folded through `schemeAfter`; the targets are folded through
`setTargetScheme`. -/
theorem applyCertificates_spec (env : Env) (host : String) (cs : List Certificate) :
    ∀ (rs rs' : RouteStatus) (u : URL), rs.URL = some u →
      applyCertificates env host cs rs = some rs' →
      (∃ u', rs'.URL = some u' ∧ u'.Scheme = cs.foldl (schemeAfter host) u.Scheme) ∧
      rs'.Traffic = cs.foldl
        (fun tt c => tt.map (setTargetScheme c.DNSNames (readinessScheme c))) rs.Traffic := by
  induction cs with
  | nil =>
    intro rs rs' u hurl h
    simp only [applyCertificates, Option.some.injEq] at h
    subst h
    exact ⟨⟨u, hurl, rfl⟩, rfl⟩
  | cons c rest ih =>
    intro rs rs' u hurl h
    unfold applyCertificates at h
    cases hap : applyCertificate env host rs c with
    | none => simp [hap] at h
    | some rs1 =>
      simp only [hap] at h
      obtain ⟨⟨u1, hu1, hs1⟩, ht1⟩ := applyCertificate_spec env host rs rs1 c u hurl hap
      obtain ⟨⟨u', hu', hs'⟩, ht'⟩ := ih rs1 rs' u1 hu1 h
      refine ⟨⟨u', hu', ?_⟩, ?_⟩
      · rw [hs', hs1]; rfl
      · rw [ht', ht1]; rfl

/-- The loop body on one target with a URL: only the scheme of the URL changes,
following `schemeAfter` for the host of the URL. -/
theorem setTargetScheme_of_url (t : TrafficTarget) (u : URL) (c : Certificate)
    (hu : t.URL = some u) :
    setTargetScheme c.DNSNames (readinessScheme c) t =
      { t with URL := some { u with Scheme := schemeAfter u.Host u.Scheme c } } := by
  unfold setTargetScheme schemeAfter
  by_cases hc : u.Host ∈ c.DNSNames
  · have hany : (c.DNSNames.any fun dnsName => u.Host == dnsName) = true := by
      simp [List.any_eq_true, hc]
    simp [hu, hany, hc]
  · have hany : (c.DNSNames.any fun dnsName => u.Host == dnsName) = false := by
      rw [List.any_eq_false]
      intro x hx heq
      have hxe : u.Host = x := by simpa using heq
      exact hc (hxe ▸ hx)
    simp [hu, hany, hc]
    cases t
    simp_all

/-- The loop body on one target without a URL leaves the target as it is. -/
theorem setTargetScheme_of_nil (t : TrafficTarget) (dnsNames : List String) (scheme : String)
    (hu : t.URL = none) : setTargetScheme dnsNames scheme t = t := by
  simp [setTargetScheme, hu]

/-- One target through the loop bodies of a list of certificates. -/
theorem foldl_setTargetScheme (cs : List Certificate) :
    ∀ t : TrafficTarget,
      (t.URL = none →
        cs.foldl (fun t c => setTargetScheme c.DNSNames (readinessScheme c) t) t = t) ∧
      (∀ u, t.URL = some u →
        cs.foldl (fun t c => setTargetScheme c.DNSNames (readinessScheme c) t) t =
          { t with URL := some { u with Scheme := cs.foldl (schemeAfter u.Host) u.Scheme } }) := by
  induction cs with
  | nil =>
    intro t
    refine ⟨fun _ => rfl, fun u hu => ?_⟩
    cases t
    simp_all
  | cons c rest ih =>
    intro t
    refine ⟨fun hn => ?_, fun u hu => ?_⟩
    · simp only [List.foldl_cons]
      rw [setTargetScheme_of_nil t _ _ hn]
      exact (ih t).1 hn
    · simp only [List.foldl_cons]
      rw [setTargetScheme_of_url t u c hu]
      rw [(ih _).2 { u with Scheme := schemeAfter u.Host u.Scheme c } rfl]

/-- Folding maps over the targets is mapping the fold over each target. -/
theorem foldl_map_targets (cs : List Certificate) :
    ∀ l : List TrafficTarget,
      cs.foldl (fun tt c => tt.map (setTargetScheme c.DNSNames (readinessScheme c))) l =
        l.map (fun t =>
          cs.foldl (fun t c => setTargetScheme c.DNSNames (readinessScheme c) t) t) := by
  induction cs with
  | nil => intro l; simp
  | cons c rest ih =>
    intro l
    simp only [List.foldl_cons]
    rw [ih]
    simp

/-- C4: for every call of `tls` that returns without error on a route whose
primary URL is not nil, if no host is in the DNS names of two different
certificates returned by `reconcileCertificate` during the call, then the
primary URL (matched against the primary host) and the URL of every resolved
target that has one (matched against its own host) end with scheme `https` when
a returned Ready certificate covers the host, with scheme `http` when a
returned certificate that is not Ready covers it, and with the scheme they had
when no returned certificate covers it; targets keep their position, a target
without URL keeps none, and the host of a target URL is unchanged. -/
theorem tls_scheme_per_host (env : Env) (host : String) (r : Route) (traffic : Config)
    (tr : Trace) (bindings : Option (List IngressTLS)) (r' : Route) (tr' : Trace) (u0 : URL)
    (hurl : r.Status.URL = some u0)
    (hret : tls env host r traffic tr = some ((bindings, none), r', tr'))
    (hdisj : ∀ c1 ∈ reconciledCertificates (tr'.drop tr.length),
      ∀ c2 ∈ reconciledCertificates (tr'.drop tr.length),
        c1 ≠ c2 → ∀ x, x ∈ c1.DNSNames → x ∉ c2.DNSNames) :
    (∃ u', r'.Status.URL = some u' ∧
      (∀ c ∈ reconciledCertificates (tr'.drop tr.length),
        host ∈ c.DNSNames → c.IsReady = true → u'.Scheme = "https") ∧
      (∀ c ∈ reconciledCertificates (tr'.drop tr.length),
        host ∈ c.DNSNames → c.IsReady = false → u'.Scheme = "http") ∧
      ((∀ c ∈ reconciledCertificates (tr'.drop tr.length), host ∉ c.DNSNames) →
        u'.Scheme = u0.Scheme)) ∧
    r'.Status.Traffic.length = r.Status.Traffic.length ∧
    ∀ (i : Nat) (t : TrafficTarget), r.Status.Traffic[i]? = some t →
      ∃ t', r'.Status.Traffic[i]? = some t' ∧
        (t.URL = none → t'.URL = none) ∧
        ∀ u, t.URL = some u →
          ∃ u', t'.URL = some u' ∧ u'.Host = u.Host ∧
            (∀ c ∈ reconciledCertificates (tr'.drop tr.length),
              u.Host ∈ c.DNSNames → c.IsReady = true → u'.Scheme = "https") ∧
            (∀ c ∈ reconciledCertificates (tr'.drop tr.length),
              u.Host ∈ c.DNSNames → c.IsReady = false → u'.Scheme = "http") ∧
            ((∀ c ∈ reconciledCertificates (tr'.drop tr.length), u.Host ∉ c.DNSNames) →
              u'.Scheme = u.Scheme) := by
  -- the call log extension and the certificates it records
  have hshape : ∃ ext, tr' = tr ++ ext ∧
      applyCertificates env host (reconciledCertificates ext) r.Status = some r'.Status := by
    unfold tls at hret
    split at hret
    · simp only [Option.some.injEq, Prod.mk.injEq] at hret
      obtain ⟨-, rfl, rfl⟩ := hret
      exact ⟨[], by simp, rfl⟩
    · cases hg : env.GetAllDomainsAndTags r (getTrafficNames traffic.Targets) with
      | error err => simp [hg] at hret
      | ok m =>
        simp only [hg] at hret
        obtain ⟨ext, hext, happ⟩ := tlsLoop_ok env host _ _ _ _ _ _ _ hret
        refine ⟨Event.GetAllDomainsAndTags r (getTrafficNames traffic.Targets) :: ext, ?_, ?_⟩
        · rw [hext]; simp
        · simpa [reconciledCertificates] using happ
  obtain ⟨ext, hext, happ⟩ := hshape
  have hdrop : tr'.drop tr.length = ext := by rw [hext]; simp
  rw [hdrop] at hdisj ⊢
  obtain ⟨⟨u', hu', hs'⟩, htraffic⟩ :=
    applyCertificates_spec env host (reconciledCertificates ext) r.Status r'.Status u0 hurl happ
  rw [foldl_map_targets] at htraffic
  refine ⟨⟨u', hu', ?_⟩, ?_, ?_⟩
  · rw [hs']
    exact foldl_schemeAfter_spec host (reconciledCertificates ext) u0.Scheme hdisj
  · rw [htraffic]; simp
  · intro i t hi
    refine ⟨_, by rw [htraffic, List.getElem?_map, hi]; rfl, ?_, ?_⟩
    · intro hn
      show (List.foldl (fun t c => setTargetScheme c.DNSNames (readinessScheme c) t) t
        (reconciledCertificates ext)).URL = none
      rw [(foldl_setTargetScheme (reconciledCertificates ext) t).1 hn]
      exact hn
    · intro u hu
      show ∃ u', (List.foldl (fun t c => setTargetScheme c.DNSNames (readinessScheme c) t) t
        (reconciledCertificates ext)).URL = some u' ∧ _
      rw [(foldl_setTargetScheme (reconciledCertificates ext) t).2 u hu]
      exact ⟨_, rfl, rfl,
        foldl_schemeAfter_spec u.Host (reconciledCertificates ext) u.Scheme hdisj⟩

/-- The run of `tls` on `twoTargetsRoute` with the primary host. -/
theorem tls_twoTargets :
    tls twoCertsEnv "a.example.com" twoTargetsRoute twoTargetsConfig [] =
      some ((some twoTargetsBindings, none), twoTargetsRouteAfter, twoTargetsTrace) := by
  decide

/-- Witness of C4: a Ready certificate covers `a.example.com`, one that is not
Ready covers `b.example.com`; the target of the first host ends with `https`,
the target of the second with `http`. -/
theorem tls_scheme_per_host_witness :
    reconciledCertificates twoTargetsTrace =
        [{ desiredA with Status := Readiness.Ready },
          { desiredB with Status := Readiness.NotReady }] ∧
      twoTargetsRouteAfter.Status.Traffic =
        [targetAt "" "https" "a.example.com", targetAt "b" "http" "b.example.com"] ∧
      ∀ (i : Nat) (t : TrafficTarget), twoTargetsRoute.Status.Traffic[i]? = some t →
        ∃ t', twoTargetsRouteAfter.Status.Traffic[i]? = some t' ∧
          (t.URL = none → t'.URL = none) ∧
          ∀ u, t.URL = some u →
            ∃ u', t'.URL = some u' ∧ u'.Host = u.Host ∧
              (∀ c ∈ reconciledCertificates (twoTargetsTrace.drop ([] : Trace).length),
                u.Host ∈ c.DNSNames → c.IsReady = true → u'.Scheme = "https") ∧
              (∀ c ∈ reconciledCertificates (twoTargetsTrace.drop ([] : Trace).length),
                u.Host ∈ c.DNSNames → c.IsReady = false → u'.Scheme = "http") ∧
              ((∀ c ∈ reconciledCertificates (twoTargetsTrace.drop ([] : Trace).length),
                  u.Host ∉ c.DNSNames) →
                u'.Scheme = u.Scheme) :=
  ⟨by decide, by decide,
    (tls_scheme_per_host twoCertsEnv "a.example.com" twoTargetsRoute twoTargetsConfig []
      (some twoTargetsBindings) twoTargetsRouteAfter twoTargetsTrace
      { Scheme := "http", Host := "a.example.com" } rfl tls_twoTargets (by decide)).2.2⟩

/-! ## Certificate reconciliation errors -/

/-- The loop body leaves everything but conditions, primary URL and targets. -/
theorem applyCertificate_frame (env : Env) (host : String) (rs rs' : RouteStatus)
    (c : Certificate) (h : applyCertificate env host rs c = some rs') :
    rs'.ObservedGeneration = rs.ObservedGeneration ∧ rs'.Address = rs.Address ∧
    rs'.DeprecatedDomain = rs.DeprecatedDomain ∧
    rs'.DeprecatedDomainInternal = rs.DeprecatedDomainInternal := by
  unfold applyCertificate at h
  cases hr : c.IsReady <;> by_cases hc : host ∈ c.DNSNames <;>
    simp only [hr, hc, RouteStatus.withConditions, setTargetsScheme] at h
  · simp at h; subst h; simp
  · simp at h; subst h; simp
  · cases hu : rs.URL with
    | none => simp [hu] at h
    | some u => simp [hu] at h; subst h; simp
  · simp at h; subst h; simp

/-- A returning run of the loop of `tls`: the log is extended by
`reconcileCertificate` calls only, the route keeps everything but its status,
and an entry for `d` with error `e` is the last entry, made on the route whose
conditions are then marked, with `d` the last desired certificate requested. -/
theorem tlsLoop_error_entry (env : Env) (host : String) (desired : List Certificate) :
    ∀ (r : Route) (acc : List IngressTLS) (tr : Trace)
      (ret : Option (List IngressTLS) × Option Error) (r' : Route) (tr' : Trace),
      tlsLoop env host desired r acc tr = some (ret, r', tr') →
      ∃ ext, tr' = tr ++ ext ∧ (∀ ev ∈ ext, ev.call = Call.reconcileCertificate) ∧
        r' = r.withStatus r'.Status ∧
        r'.Status.ObservedGeneration = r.Status.ObservedGeneration ∧
        ∀ (rx : Route) (d : Certificate) (e : Error),
          Event.reconcileCertificate rx d (Result.error e) ∈ ext →
          ret = (none, some e) ∧
          r'.Status = rx.Status.withConditions (env.MarkCertificateProvisionFailed d.Name) ∧
          (∃ pre, ext = pre ++ [Event.reconcileCertificate rx d (Result.error e)]) ∧
          ∃ before after, desired = before ++ d :: after ∧
            requestedCertificates ext = before ++ [d] := by
  induction desired with
  | nil =>
    intro r acc tr ret r' tr' h
    simp only [tlsLoop, Option.some.injEq, Prod.mk.injEq] at h
    obtain ⟨-, rfl, rfl⟩ := h
    exact ⟨[], by simp, by simp, rfl, rfl, by simp⟩
  | cons d0 rest ih =>
    intro r acc tr ret r' tr' h
    unfold tlsLoop at h
    cases hrc : env.reconcileCertificate r d0 with
    | error err =>
      simp only [hrc, Option.some.injEq, Prod.mk.injEq] at h
      obtain ⟨rfl, rfl, rfl⟩ := h
      refine ⟨[Event.reconcileCertificate r d0 (Result.error err)], rfl, by simp [Event.call],
        rfl, rfl, ?_⟩
      intro rx d e hmem
      simp only [List.mem_singleton, Event.reconcileCertificate.injEq, Result.error.injEq] at hmem
      obtain ⟨rfl, rfl, rfl⟩ := hmem
      exact ⟨rfl, rfl, ⟨[], rfl⟩, [], rest, rfl, rfl⟩
    | ok cert =>
      simp only [hrc] at h
      cases hap : applyCertificate env host r.Status cert with
      | none => simp [hap] at h
      | some rs =>
        simp only [hap] at h
        obtain ⟨ext, hext, hcalls, hroute, hog, herr⟩ := ih _ _ _ _ _ _ h
        refine ⟨Event.reconcileCertificate r d0 (Result.ok cert) :: ext, ?_, ?_, ?_, ?_, ?_⟩
        · rw [hext]; simp
        · intro ev hev
          rcases List.mem_cons.1 hev with rfl | hin
          · rfl
          · exact hcalls ev hin
        · rw [hroute]; rfl
        · rw [hog]
          exact (applyCertificate_frame env host r.Status rs cert hap).1
        · intro rx d e hmem
          have hin : Event.reconcileCertificate rx d (Result.error e) ∈ ext := by
            rcases List.mem_cons.1 hmem with heq | hin
            · simp at heq
            · exact hin
          obtain ⟨hret, hst, ⟨pre, hpre⟩, before, after, hdes, hreq⟩ := herr rx d e hin
          refine ⟨hret, hst, ⟨Event.reconcileCertificate r d0 (Result.ok cert) :: pre, ?_⟩,
            d0 :: before, after, ?_, ?_⟩
          · rw [hpre]; rfl
          · rw [hdes]; rfl
          · simp only [requestedCertificates, hreq, List.cons_append]

/-- A returning `tls`: the log is extended by one `GetAllDomainsAndTags` call
followed by `reconcileCertificate` calls (or by nothing), only the status of
the route may change, `ObservedGeneration` is kept, and an entry for `d` with
error `e` is the last entry and decides the outcome. -/
theorem tls_error_entry (env : Env) (host : String) (r : Route) (traffic : Config)
    (tr : Trace) (ret : Option (List IngressTLS) × Option Error) (r' : Route) (tr' : Trace)
    (h : tls env host r traffic tr = some (ret, r', tr')) :
    ∃ ext, tr' = tr ++ ext ∧
      (∀ ev ∈ ext,
        ev.call = Call.GetAllDomainsAndTags ∨ ev.call = Call.reconcileCertificate) ∧
      r' = r.withStatus r'.Status ∧
      r'.Status.ObservedGeneration = r.Status.ObservedGeneration ∧
      ∀ (rx : Route) (d : Certificate) (e : Error),
        Event.reconcileCertificate rx d (Result.error e) ∈ ext →
        ret = (none, some e) ∧
        r'.Status = rx.Status.withConditions (env.MarkCertificateProvisionFailed d.Name) ∧
        (∃ pre, ext = pre ++ [Event.reconcileCertificate rx d (Result.error e)]) ∧
        ∃ m before after,
          env.GetAllDomainsAndTags r (getTrafficNames traffic.Targets) = Result.ok m ∧
          MakeCertificates r m = before ++ d :: after ∧
          requestedCertificates ext = before ++ [d] := by
  unfold tls at h
  split at h
  · simp only [Option.some.injEq, Prod.mk.injEq] at h
    obtain ⟨-, rfl, rfl⟩ := h
    exact ⟨[], by simp, by simp, rfl, rfl, by simp⟩
  · cases hg : env.GetAllDomainsAndTags r (getTrafficNames traffic.Targets) with
    | error err =>
      simp only [hg, Option.some.injEq, Prod.mk.injEq] at h
      obtain ⟨-, rfl, rfl⟩ := h
      exact ⟨[Event.GetAllDomainsAndTags r (getTrafficNames traffic.Targets)], rfl,
        by simp [Event.call], rfl, rfl, by simp⟩
    | ok m =>
      simp only [hg] at h
      obtain ⟨ext, hext, hcalls, hroute, hog, herr⟩ := tlsLoop_error_entry env host _ _ _ _ _ _ _ h
      refine ⟨Event.GetAllDomainsAndTags r (getTrafficNames traffic.Targets) :: ext, ?_, ?_,
        hroute, hog, ?_⟩
      · rw [hext]; simp
      · intro ev hev
        rcases List.mem_cons.1 hev with rfl | hin
        · exact Or.inl rfl
        · exact Or.inr (hcalls ev hin)
      · intro rx d e hmem
        have hin : Event.reconcileCertificate rx d (Result.error e) ∈ ext := by
          rcases List.mem_cons.1 hmem with heq | hin
          · simp at heq
          · exact hin
        obtain ⟨hret, hst, ⟨pre, hpre⟩, before, after, hdes, hreq⟩ := herr rx d e hin
        refine ⟨hret, hst, ⟨Event.GetAllDomainsAndTags r (getTrafficNames traffic.Targets) :: pre,
          ?_⟩, m, before, after, rfl, hdes, ?_⟩
        · rw [hpre]; rfl
        · simp only [requestedCertificates, hreq]

/-! ## Call logs of the parts of `reconcile` -/

/-- The tracking loop only logs `Track` calls. -/
theorem trackAll_log (env : Env) (r : Route) (l : List Accessor) :
    ∀ tr : Trace, ∃ ext, (trackAll env r l tr).2 = tr ++ ext ∧
      ∀ ev ∈ ext, ev.call = Call.Track := by
  induction l with
  | nil => intro tr; exact ⟨[], by simp [trackAll], by simp⟩
  | cons a rest ih =>
    intro tr
    unfold trackAll
    cases ht : env.Track (objectRef a) r with
    | some err => exact ⟨[Event.Track (objectRef a) r], rfl, by simp [Event.call]⟩
    | none =>
      obtain ⟨ext, hext, hcalls⟩ := ih (tr ++ [Event.Track (objectRef a) r])
      refine ⟨Event.Track (objectRef a) r :: ext, ?_, ?_⟩
      · simp only [hext]; simp
      · intro ev hev
        rcases List.mem_cons.1 hev with rfl | hin
        · rfl
        · exact hcalls ev hin

/-- The tracking block only logs `Track` calls. -/
theorem trackConfig_log (env : Env) (r : Route) (t : Option Config) (tr : Trace) :
    ∃ ext, (trackConfig env r t tr).2 = tr ++ ext ∧ ∀ ev ∈ ext, ev.call = Call.Track := by
  cases t with
  | none => exact ⟨[], by simp [trackConfig], by simp⟩
  | some t =>
    obtain ⟨ext1, hext1, hcalls1⟩ := trackAll_log env r t.Configurations tr
    cases h1 : trackAll env r t.Configurations tr with
    | mk e1 tr1 =>
      rw [h1] at hext1
      simp only at hext1
      cases e1 with
      | some err => exact ⟨ext1, by simp only [trackConfig, h1, hext1], hcalls1⟩
      | none =>
        obtain ⟨ext2, hext2, hcalls2⟩ := trackAll_log env r t.Revisions tr1
        refine ⟨ext1 ++ ext2, ?_, ?_⟩
        · simp only [trackConfig, h1]
          rw [hext2, hext1, List.append_assoc]
        · intro ev hev
          rcases List.mem_append.1 hev with h | h
          · exact hcalls1 ev h
          · exact hcalls2 ev h

/-- `configureTraffic` only logs `Track` calls and only changes the conditions
and the targets of the route status. -/
theorem configureTraffic_log (env : Env) (r : Route) (tr : Trace) :
    (∃ ext, (configureTraffic env r tr).2.2 = tr ++ ext ∧ ∀ ev ∈ ext, ev.call = Call.Track) ∧
    (configureTraffic env r tr).2.1 = r.withStatus (configureTraffic env r tr).2.1.Status ∧
    (configureTraffic env r tr).2.1.Status.URL = r.Status.URL ∧
    (configureTraffic env r tr).2.1.Status.ObservedGeneration = r.Status.ObservedGeneration ∧
    (configureTraffic env r tr).2.1.Status.Address = r.Status.Address := by
  cases hb : env.BuildTrafficConfiguration r with
  | failed t err =>
    obtain ⟨ext, hext, hcalls⟩ := trackConfig_log env r t tr
    cases hk : trackConfig env r t tr with
    | mk e1 tr1 =>
      rw [hk] at hext
      simp only at hext
      cases e1 with
      | some terr =>
        have hval : configureTraffic env r tr = ((none, some terr), r, tr1) := by
          simp only [configureTraffic, hb, hk]
        rw [hval]
        exact ⟨⟨ext, hext, hcalls⟩, rfl, rfl, rfl, rfl⟩
      | none =>
        cases err with
        | other msg =>
          have hval : configureTraffic env r tr =
              ((none, some (Error.other msg)),
                r.withStatus (r.Status.withConditions
                  (env.MarkUnknownTrafficError (Error.other msg).message)), tr1) := by
            simp only [configureTraffic, hb, hk]
          rw [hval]
          exact ⟨⟨ext, hext, hcalls⟩, rfl, rfl, rfl, rfl⟩
        | target name =>
          have hval : configureTraffic env r tr =
              ((none, none),
                r.withStatus (r.Status.withConditions (env.MarkBadTrafficTarget name)), tr1) := by
            simp only [configureTraffic, hb, hk]
          rw [hval]
          exact ⟨⟨ext, hext, hcalls⟩, rfl, rfl, rfl, rfl⟩
  | ok t =>
    obtain ⟨ext, hext, hcalls⟩ := trackConfig_log env r (some t) tr
    cases hk : trackConfig env r (some t) tr with
    | mk e1 tr1 =>
      rw [hk] at hext
      simp only at hext
      cases e1 with
      | some terr =>
        have hval : configureTraffic env r tr = ((none, some terr), r, tr1) := by
          simp only [configureTraffic, hb, hk]
        rw [hval]
        exact ⟨⟨ext, hext, hcalls⟩, rfl, rfl, rfl, rfl⟩
      | none =>
        cases hg : env.GetRevisionTrafficTargets t r with
        | error err =>
          have hval : configureTraffic env r tr = ((none, some err), r, tr1) := by
            simp only [configureTraffic, hb, hk, hg]
          rw [hval]
          exact ⟨⟨ext, hext, hcalls⟩, rfl, rfl, rfl, rfl⟩
        | ok targets =>
          have hval : configureTraffic env r tr =
              ((some t, none),
                r.withStatus
                  ({ r.Status with Traffic := targets }.withConditions env.MarkTrafficAssigned),
                tr1) := by
            simp only [configureTraffic, hb, hk, hg]
          rw [hval]
          exact ⟨⟨ext, hext, hcalls⟩, rfl, rfl, rfl, rfl⟩

/-- `ensureFinalizer` logs at most one `RoutesPatch` call. -/
theorem ensureFinalizer_log (env : Env) (route : Route) (tr : Trace) :
    ∃ ext, (ensureFinalizer env route tr).2 = tr ++ ext ∧
      ∀ ev ∈ ext, ev.call = Call.RoutesPatch := by
  unfold ensureFinalizer
  split
  · exact ⟨[], by simp, by simp⟩
  · exact ⟨_, rfl, by simp [Event.call]⟩

/-- `reconcileDeletion` logs the delete call and then at most one update. -/
theorem reconcileDeletion_log (env : Env) (r : Route) (tr : Trace) :
    ∃ ext, (reconcileDeletion env r tr).2.2 = tr ++ ext ∧
      ∀ ev ∈ ext,
        ev.call = Call.deleteClusterIngressesForRoute ∨ ev.call = Call.RoutesUpdate := by
  unfold reconcileDeletion
  cases hf : r.Finalizers with
  | nil => exact ⟨[], by simp, by simp⟩
  | cons first rest =>
    by_cases hne : first = routeFinalizer
    · cases hd : env.deleteClusterIngressesForRoute r with
      | some err =>
        exact ⟨[Event.deleteClusterIngressesForRoute r], by simp [hne, hd], by simp [Event.call]⟩
      | none =>
        refine ⟨[Event.deleteClusterIngressesForRoute r,
          Event.RoutesUpdate r.Namespace { r with Finalizers := rest }], by simp [hne, hd], ?_⟩
        simp [Event.call]
    · exact ⟨[], by simp [hne], by simp⟩

/-- `configureTraffic_log` for a given outcome. -/
theorem configureTraffic_log_of_eq (env : Env) (r : Route) (tr : Trace)
    (ret : Option Config × Option Error) (r4 : Route) (tr4 : Trace)
    (h : configureTraffic env r tr = (ret, r4, tr4)) :
    (∃ ext, tr4 = tr ++ ext ∧ ∀ ev ∈ ext, ev.call = Call.Track) ∧
    r4 = r.withStatus r4.Status ∧ r4.Status.URL = r.Status.URL ∧
    r4.Status.ObservedGeneration = r.Status.ObservedGeneration ∧
    r4.Status.Address = r.Status.Address := by
  have hl := configureTraffic_log env r tr
  rw [h] at hl
  exact hl

/-- `ensureFinalizer_log` for a given outcome. -/
theorem ensureFinalizer_log_of_eq (env : Env) (route : Route) (tr : Trace) (e : Option Error)
    (tr6 : Trace) (h : ensureFinalizer env route tr = (e, tr6)) :
    ∃ ext, tr6 = tr ++ ext ∧ ∀ ev ∈ ext, ev.call = Call.RoutesPatch := by
  have hl := ensureFinalizer_log env route tr
  rw [h] at hl
  exact hl

/-- A log made of calls before `tls`, calls of `tls` and calls after `tls`
holds no status write, and its `reconcileCertificate` entries are in the part
of `tls`. -/
theorem log_phases (pre mid post : Trace)
    (hpre : ∀ ev ∈ pre, ev.call ∈ callsBeforeTLS)
    (hmid : ∀ ev ∈ mid,
      ev.call = Call.GetAllDomainsAndTags ∨ ev.call = Call.reconcileCertificate)
    (hpost : ∀ ev ∈ post, ev.call ∈ callsAfterTLS) :
    (∀ ev ∈ pre ++ mid ++ post, ev.call ≠ Call.updateStatus ∧ ev.call ≠ Call.RecorderEvent ∧
      ev.call ≠ Call.MarkNeedsUpgrade) ∧
    (∀ rx d res, Event.reconcileCertificate rx d res ∈ pre ++ mid ++ post →
      Event.reconcileCertificate rx d res ∈ mid) ∧
    (post = [] → ∀ ev ∈ pre ++ mid ++ post, ev.call ≠ Call.MakeClusterIngress ∧
      ev.call ≠ Call.reconcileClusterIngress ∧ ev.call ≠ Call.updatePlaceholderServices) := by
  refine ⟨?_, ?_, ?_⟩
  · intro ev hev
    simp only [List.mem_append] at hev
    rcases hev with (h | h) | h
    · have := hpre ev h
      revert this
      cases ev.call <;> simp [callsBeforeTLS]
    · rcases hmid ev h with h1 | h1 <;> simp [h1]
    · have := hpost ev h
      revert this
      cases ev.call <;> simp [callsAfterTLS]
  · intro rx d res hev
    simp only [List.mem_append] at hev
    rcases hev with (h | h) | h
    · have := hpre _ h
      simp [Event.call, callsBeforeTLS] at this
    · exact h
    · have := hpost _ h
      simp [Event.call, callsAfterTLS] at this
  · intro hnil ev hev
    subst hnil
    simp only [List.mem_append, List.append_nil] at hev
    rcases hev with h | h
    · have := hpre ev h
      revert this
      cases ev.call <;> simp [callsBeforeTLS]
    · rcases hmid ev h with h1 | h1 <;> simp [h1]

/-- A returning `reconcile`: the collaborators it may call, and what an entry
of a failed `reconcileCertificate` call in its log implies. -/
theorem reconcile_log (env : Env) (r : Route) (tr : Trace) (res : Option Error) (r' : Route)
    (tr' : Trace) (h : reconcile env r tr = some (res, r', tr')) :
    ∃ ext, tr' = tr ++ ext ∧
      (∀ ev ∈ ext, ev.call ≠ Call.updateStatus ∧ ev.call ≠ Call.RecorderEvent ∧
        ev.call ≠ Call.MarkNeedsUpgrade) ∧
      ∀ (rx : Route) (d : Certificate) (e : Error),
        Event.reconcileCertificate rx d (Result.error e) ∈ ext →
        res = some e ∧
        (∀ ev ∈ ext, ev.call ≠ Call.MakeClusterIngress ∧
          ev.call ≠ Call.reconcileClusterIngress ∧
          ev.call ≠ Call.updatePlaceholderServices) ∧
        r'.Status.ObservedGeneration = r.Status.ObservedGeneration := by
  -- every exit before `tls` has a log of the first phase only
  have early : ∀ pre : Trace, (∀ ev ∈ pre, ev.call ∈ callsBeforeTLS) →
      ∃ ext, tr ++ pre = tr ++ ext ∧
        (∀ ev ∈ ext, ev.call ≠ Call.updateStatus ∧ ev.call ≠ Call.RecorderEvent ∧
          ev.call ≠ Call.MarkNeedsUpgrade) ∧
        ∀ (rx : Route) (d : Certificate) (e : Error),
          Event.reconcileCertificate rx d (Result.error e) ∈ ext →
          res = some e ∧
          (∀ ev ∈ ext, ev.call ≠ Call.MakeClusterIngress ∧
            ev.call ≠ Call.reconcileClusterIngress ∧
            ev.call ≠ Call.updatePlaceholderServices) ∧
          r'.Status.ObservedGeneration = r.Status.ObservedGeneration := by
    intro pre hpre
    obtain ⟨hA, hB, -⟩ := log_phases pre [] [] hpre (by simp) (by simp)
    simp only [List.append_nil] at hA hB
    exact ⟨pre, rfl, hA, fun rx d e hmem => absurd (hB rx d _ hmem) (by simp)⟩
  unfold reconcile at h
  split at h
  · -- deletion
    simp only [Option.some.injEq] at h
    obtain ⟨ext, hext, hcalls⟩ := reconcileDeletion_log env r tr
    rw [h] at hext
    simp only at hext
    rw [hext]
    refine early ext (fun ev hev => ?_)
    rcases hcalls ev hev with h1 | h1 <;> simp [h1, callsBeforeTLS]
  · dsimp only at h
    split at h
    · simp only [Option.some.injEq, Prod.mk.injEq] at h
      obtain ⟨-, -, rfl⟩ := h
      have he := early [] (by simp)
      simp only [List.append_nil] at he
      exact he
    · split at h
      · simp only [Option.some.injEq, Prod.mk.injEq] at h
        obtain ⟨-, -, rfl⟩ := h
        have he := early [] (by simp)
        simp only [List.append_nil] at he
        exact he
      · rename_i host hdn
        split at h
        · rename_i fst err r4 tr4 hct
          simp only [Option.some.injEq, Prod.mk.injEq] at h
          obtain ⟨-, -, rfl⟩ := h
          obtain ⟨⟨ext4, rfl, hc4⟩, -⟩ := configureTraffic_log_of_eq env _ tr _ _ _ hct
          exact early ext4 (fun ev hev => by simp [hc4 ev hev, callsBeforeTLS])
        · rename_i r4 tr4 hct
          simp only [Option.some.injEq, Prod.mk.injEq] at h
          obtain ⟨-, -, rfl⟩ := h
          obtain ⟨⟨ext4, rfl, hc4⟩, -⟩ := configureTraffic_log_of_eq env _ tr _ _ _ hct
          exact early ext4 (fun ev hev => by simp [hc4 ev hev, callsBeforeTLS])
        · rename_i traffic r4 tr4 hct
          obtain ⟨⟨ext4, rfl, hc4⟩, -, -, hog4, -⟩ :=
            configureTraffic_log_of_eq env _ tr _ _ _ hct
          have hp4 : ∀ ev ∈ ext4 ++ [Event.reconcileTargetRevisions traffic r4],
              ev.call ∈ callsBeforeTLS := by
            intro ev hev
            rcases List.mem_append.1 hev with h1 | h1
            · simp [hc4 ev h1, callsBeforeTLS]
            · simp only [List.mem_singleton] at h1
              subst h1
              simp [Event.call, callsBeforeTLS]
          split at h
          · simp only [Option.some.injEq, Prod.mk.injEq] at h
            obtain ⟨-, -, rfl⟩ := h
            simpa [List.append_assoc] using early _ hp4
          · split at h
            · rename_i err tr6 hef
              simp only [Option.some.injEq, Prod.mk.injEq] at h
              obtain ⟨-, -, rfl⟩ := h
              obtain ⟨ext6, rfl, hc6⟩ := ensureFinalizer_log_of_eq env _ _ _ _ hef
              have hp6 : ∀ ev ∈ ext4 ++ [Event.reconcileTargetRevisions traffic r4] ++ ext6,
                  ev.call ∈ callsBeforeTLS := by
                intro ev hev
                rcases List.mem_append.1 hev with h1 | h1
                · exact hp4 ev h1
                · simp [hc6 ev h1, callsBeforeTLS]
              simpa [List.append_assoc] using early _ hp6
            · rename_i tr6 hef
              obtain ⟨ext6, rfl, hc6⟩ := ensureFinalizer_log_of_eq env _ _ _ _ hef
              have hp7 : ∀ ev ∈ ext4 ++ [Event.reconcileTargetRevisions traffic r4] ++ ext6 ++
                  [Event.reconcilePlaceholderServices
                    (r4.withStatus
                      { r4.Status with
                        DeprecatedDomainInternal := "",
                        Address := some
                          { URL := some { Scheme := "http", Host := env.K8sServiceFullname r4 },
                            Hostname := "" } })
                    traffic.Targets],
                  ev.call ∈ callsBeforeTLS := by
                intro ev hev
                rcases List.mem_append.1 hev with h1 | h1
                · rcases List.mem_append.1 h1 with h2 | h2
                  · exact hp4 ev h2
                  · simp [hc6 ev h2, callsBeforeTLS]
                · simp only [List.mem_singleton] at h1
                  subst h1
                  simp [Event.call, callsBeforeTLS]
              simp only [Route.withStatus, RouteStatus.withConditions, applyDefaults,
                setStatusURL] at hog4
              split at h
              · simp only [Option.some.injEq, Prod.mk.injEq] at h
                obtain ⟨-, -, rfl⟩ := h
                simpa [List.append_assoc] using early _ hp7
              · rename_i services hps
                split at h
                · exact absurd h (by simp)
                · rename_i fst err r8 tr8 htls
                  simp only [Option.some.injEq, Prod.mk.injEq] at h
                  obtain ⟨rfl, rfl, rfl⟩ := h
                  obtain ⟨ext8, rfl, hc8, -, hog8, herr8⟩ :=
                    tls_error_entry env _ _ _ _ _ _ _ htls
                  obtain ⟨hA, hB, hC⟩ := log_phases _ ext8 [] hp7 hc8 (by simp)
                  refine ⟨_ ++ ext8 ++ [], by simp [List.append_assoc], hA, ?_⟩
                  intro rx d e hmem
                  obtain ⟨hret, -⟩ := herr8 rx d e (hB rx d _ hmem)
                  simp only [Prod.mk.injEq, Option.some.injEq] at hret
                  refine ⟨by rw [hret.2], hC rfl, ?_⟩
                  rw [hog8]
                  exact hog4
                · rename_i tlsv r8 tr8 htls
                  obtain ⟨ext8, rfl, hc8, -, hog8, herr8⟩ :=
                    tls_error_entry env _ _ _ _ _ _ _ htls
                  split at h
                  · simp only [Option.some.injEq, Prod.mk.injEq] at h
                    obtain ⟨-, -, rfl⟩ := h
                    obtain ⟨hA, hB, -⟩ := log_phases _ ext8
                      [Event.MakeClusterIngress r8 traffic (tlsv.getD []) (ingressClassForRoute env r8)]
                      hp7 hc8 (by simp [Event.call, callsAfterTLS])
                    refine ⟨_ ++ ext8 ++
                      [Event.MakeClusterIngress r8 traffic (tlsv.getD []) (ingressClassForRoute env r8)],
                      by simp [List.append_assoc], hA, ?_⟩
                    intro rx d e hmem
                    obtain ⟨hret, -⟩ := herr8 rx d e (hB rx d _ hmem)
                    simp at hret
                  · rename_i desired hmk
                    split at h
                    · simp only [Option.some.injEq, Prod.mk.injEq] at h
                      obtain ⟨-, -, rfl⟩ := h
                      obtain ⟨hA, hB, -⟩ := log_phases _ ext8
                        [Event.MakeClusterIngress r8 traffic (tlsv.getD []) (ingressClassForRoute env r8),
                          Event.reconcileClusterIngress r8 desired]
                        hp7 hc8 (by simp [Event.call, callsAfterTLS])
                      refine ⟨_ ++ ext8 ++
                        [Event.MakeClusterIngress r8 traffic (tlsv.getD []) (ingressClassForRoute env r8),
                          Event.reconcileClusterIngress r8 desired],
                        by simp [List.append_assoc], hA, ?_⟩
                      intro rx d e hmem
                      obtain ⟨hret, -⟩ := herr8 rx d e (hB rx d _ hmem)
                      simp at hret
                    · rename_i clusterIngress hrc
                      split at h
                      · simp only [Option.some.injEq, Prod.mk.injEq] at h
                        obtain ⟨-, -, rfl⟩ := h
                        obtain ⟨hA, hB, -⟩ := log_phases _ ext8
                          [Event.MakeClusterIngress r8 traffic (tlsv.getD []) (ingressClassForRoute env r8),
                            Event.reconcileClusterIngress r8 desired,
                            Event.updatePlaceholderServices (r8.withStatus (env.PropagateClusterIngressStatus clusterIngress.Status r8.Status)) services clusterIngress]
                          hp7 hc8 (by simp [Event.call, callsAfterTLS])
                        refine ⟨_ ++ ext8 ++
                          [Event.MakeClusterIngress r8 traffic (tlsv.getD []) (ingressClassForRoute env r8),
                            Event.reconcileClusterIngress r8 desired,
                            Event.updatePlaceholderServices (r8.withStatus (env.PropagateClusterIngressStatus clusterIngress.Status r8.Status)) services clusterIngress],
                          by simp [List.append_assoc], hA, ?_⟩
                        intro rx d e hmem
                        obtain ⟨hret, -⟩ := herr8 rx d e (hB rx d _ hmem)
                        simp at hret
                      · simp only [Option.some.injEq, Prod.mk.injEq] at h
                        obtain ⟨-, -, rfl⟩ := h
                        obtain ⟨hA, hB, -⟩ := log_phases _ ext8
                          [Event.MakeClusterIngress r8 traffic (tlsv.getD []) (ingressClassForRoute env r8),
                            Event.reconcileClusterIngress r8 desired,
                            Event.updatePlaceholderServices (r8.withStatus (env.PropagateClusterIngressStatus clusterIngress.Status r8.Status)) services clusterIngress]
                          hp7 hc8 (by simp [Event.call, callsAfterTLS])
                        refine ⟨_ ++ ext8 ++
                          [Event.MakeClusterIngress r8 traffic (tlsv.getD []) (ingressClassForRoute env r8),
                            Event.reconcileClusterIngress r8 desired,
                            Event.updatePlaceholderServices (r8.withStatus (env.PropagateClusterIngressStatus clusterIngress.Status r8.Status)) services clusterIngress],
                          by simp [List.append_assoc], hA, ?_⟩
                        intro rx d e hmem
                        obtain ⟨hret, -⟩ := herr8 rx d e (hB rx d _ hmem)
                        simp at hret

/-- C8: when the log of a returning `tls` holds a `reconcileCertificate` call
for the desired certificate `d` that returned the error `e`, then `tls` returns
`e` with a nil list of bindings, the status is the one the call was made on
with the provision-failed condition marked for the name of `d`, the call is the
last entry of the log, and the certificates requested are the desired ones up
to and including `d` (none after `d`); and every `reconcile` whose log holds
such a call returns `e`, logs no `MakeClusterIngress`, `reconcileClusterIngress`
or `updatePlaceholderServices` call, and keeps `ObservedGeneration`. -/
theorem tls_certificate_error_stops (env : Env) (host : String) (r : Route)
    (traffic : Config) (tr : Trace) (ret : Option (List IngressTLS) × Option Error)
    (r' : Route) (tr' : Trace) (rx : Route) (d : Certificate) (e : Error)
    (hret : tls env host r traffic tr = some (ret, r', tr'))
    (hev : Event.reconcileCertificate rx d (Result.error e) ∈ tr'.drop tr.length) :
    ret = (none, some e) ∧
    r'.Status = rx.Status.withConditions (env.MarkCertificateProvisionFailed d.Name) ∧
    (∃ pre, tr'.drop tr.length = pre ++ [Event.reconcileCertificate rx d (Result.error e)]) ∧
    (∃ m before after,
      env.GetAllDomainsAndTags r (getTrafficNames traffic.Targets) = Result.ok m ∧
      MakeCertificates r m = before ++ d :: after ∧
      requestedCertificates (tr'.drop tr.length) = before ++ [d]) ∧
    (∀ (r0 : Route) (tr0 : Trace) (res : Option Error) (r1 : Route) (tr1 : Trace)
      (rx1 : Route) (d1 : Certificate) (e1 : Error),
      reconcile env r0 tr0 = some (res, r1, tr1) →
      Event.reconcileCertificate rx1 d1 (Result.error e1) ∈ tr1.drop tr0.length →
      res = some e1 ∧
      (∀ ev ∈ tr1.drop tr0.length, ev.call ≠ Call.MakeClusterIngress ∧
        ev.call ≠ Call.reconcileClusterIngress ∧
        ev.call ≠ Call.updatePlaceholderServices) ∧
      r1.Status.ObservedGeneration = r0.Status.ObservedGeneration) := by
  obtain ⟨ext, rfl, -, -, -, herr⟩ := tls_error_entry env host r traffic tr ret r' _ hret
  have hdrop : (tr ++ ext).drop tr.length = ext := by simp
  rw [hdrop] at hev ⊢
  obtain ⟨h1, h2, h3, h4⟩ := herr rx d e hev
  refine ⟨h1, h2, h3, h4, ?_⟩
  intro r0 tr0 res r1 tr1 rx1 d1 e1 hrec hmem
  obtain ⟨ext1, rfl, -, hB⟩ := reconcile_log env r0 tr0 res r1 _ hrec
  have hdrop1 : (tr0 ++ ext1).drop tr0.length = ext1 := by simp
  rw [hdrop1] at hmem ⊢
  exact hB rx1 d1 e1 hmem

/-- The run of `tls` on `twoTargetsRoute` when the second certificate fails. -/
theorem tls_certFails :
    tls certFailsEnv "a.example.com" twoTargetsRoute twoTargetsConfig [] =
      some ((none, some (Error.other "certificate failed")), certFailsRouteAfter,
        certFailsTrace) := by
  decide

/-- Witness of C8: the certificate of the tag `b` fails after the certificate
of the primary host was reconciled; `tls` returns the error and no bindings. -/
theorem tls_certificate_error_stops_witness :
    tls certFailsEnv "a.example.com" twoTargetsRoute twoTargetsConfig [] =
        some ((none, some (Error.other "certificate failed")), certFailsRouteAfter,
          certFailsTrace) ∧
      certFailsRouteAfter.Status =
        twoTargetsRouteMid.Status.withConditions
          (certFailsEnv.MarkCertificateProvisionFailed desiredB.Name) ∧
      ∃ m before after,
        certFailsEnv.GetAllDomainsAndTags twoTargetsRoute
            (getTrafficNames twoTargetsConfig.Targets) = Result.ok m ∧
          MakeCertificates twoTargetsRoute m = before ++ desiredB :: after ∧
          requestedCertificates (certFailsTrace.drop ([] : Trace).length) =
            before ++ [desiredB] :=
  have h := tls_certificate_error_stops certFailsEnv "a.example.com" twoTargetsRoute
    twoTargetsConfig [] (none, some (Error.other "certificate failed")) certFailsRouteAfter
    certFailsTrace twoTargetsRouteMid desiredB (Error.other "certificate failed")
    tls_certFails (by decide)
  ⟨tls_certFails, h.2.1, h.2.2.2.1⟩

/-! ## Soft and hard resolver errors -/

/-- When no `Track` call fails, the tracking loop tracks every object. -/
theorem trackAll_of_ok (env : Env) (r : Route) (l : List Accessor) :
    ∀ tr : Trace, (∀ a ∈ l, env.Track (objectRef a) r = none) →
      trackAll env r l tr = (none, tr ++ l.map (fun a => Event.Track (objectRef a) r)) := by
  induction l with
  | nil => intro tr _; simp [trackAll]
  | cons a rest ih =>
    intro tr hok
    unfold trackAll
    rw [hok a (List.mem_cons_self _ _)]
    simp only
    rw [ih _ (fun b hb => hok b (List.mem_cons_of_mem _ hb))]
    simp

/-- When no `Track` call fails, the tracking block tracks the Configurations
and then the Revisions. -/
theorem trackConfig_of_ok (env : Env) (r : Route) (t : Option Config) (tr : Trace)
    (hok : ∀ a ∈ trackedObjects t, env.Track (objectRef a) r = none) :
    trackConfig env r t tr =
      (none, tr ++ (trackedObjects t).map (fun a => Event.Track (objectRef a) r)) := by
  cases t with
  | none => simp [trackConfig, trackedObjects]
  | some t =>
    simp only [trackedObjects, List.mem_append] at hok
    simp only [trackConfig, trackedObjects]
    rw [trackAll_of_ok env r t.Configurations tr (fun a ha => hok a (Or.inl ha))]
    simp only
    rw [trackAll_of_ok env r t.Revisions _ (fun a ha => hok a (Or.inr ha))]
    simp

/-- C7: in a pass of `reconcile` that reaches the traffic resolver (no deletion
marker, `ConvertUp` and the domain template succeed), when the resolver reports
a `TargetError` and no `Track` call fails, `configureTraffic` marks the bad
target on the status and returns no configuration and no error, and
`reconcile` returns nil right there: its log holds the `Track` calls only (no
finalizer patch, no placeholder service, certificate or ClusterIngress call)
and `ObservedGeneration` is not recorded.  For every resolver error that is
not a `TargetError` (and no failing `Track` call), `configureTraffic` marks the
unknown traffic error and `reconcile` returns that error. -/
theorem soft_target_error_absorbed (env : Env) (r : Route) (tr : Trace) (host : String)
    (t : Option Config) (name : String)
    (hdel : r.DeletionTimestamp = none)
    (hcu : env.ConvertUp (applyDefaults env r) = none)
    (hdn : env.DomainNameFromTemplate (applyDefaults env r) (applyDefaults env r).Name =
      Result.ok host)
    (hb : env.BuildTrafficConfiguration (setStatusURL (applyDefaults env r) host) =
      BuildResult.failed t (Error.target name))
    (htrack : ∀ a ∈ trackedObjects t,
      env.Track (objectRef a) (setStatusURL (applyDefaults env r) host) = none) :
    configureTraffic env (setStatusURL (applyDefaults env r) host) tr =
      ((none, none),
        (setStatusURL (applyDefaults env r) host).withStatus
          ((setStatusURL (applyDefaults env r) host).Status.withConditions
            (env.MarkBadTrafficTarget name)),
        tr ++ (trackedObjects t).map
          (fun a => Event.Track (objectRef a) (setStatusURL (applyDefaults env r) host))) ∧
    reconcile env r tr =
      some (none,
        (setStatusURL (applyDefaults env r) host).withStatus
          ((setStatusURL (applyDefaults env r) host).Status.withConditions
            (env.MarkBadTrafficTarget name)),
        tr ++ (trackedObjects t).map
          (fun a => Event.Track (objectRef a) (setStatusURL (applyDefaults env r) host))) ∧
    (∀ out, reconcile env r tr = some out →
      (∀ ev ∈ out.2.2.drop tr.length, ev.call = Call.Track) ∧
      out.2.1.Status.ObservedGeneration = r.Status.ObservedGeneration ∧
      out.2.1.Finalizers = r.Finalizers) ∧
    (∀ (env2 : Env) (r2 : Route) (tr2 : Trace) (host2 : String) (t2 : Option Config)
      (msg : String),
      r2.DeletionTimestamp = none →
      env2.ConvertUp (applyDefaults env2 r2) = none →
      env2.DomainNameFromTemplate (applyDefaults env2 r2) (applyDefaults env2 r2).Name =
        Result.ok host2 →
      env2.BuildTrafficConfiguration (setStatusURL (applyDefaults env2 r2) host2) =
        BuildResult.failed t2 (Error.other msg) →
      (∀ a ∈ trackedObjects t2,
        env2.Track (objectRef a) (setStatusURL (applyDefaults env2 r2) host2) = none) →
      reconcile env2 r2 tr2 =
        some (some (Error.other msg),
          (setStatusURL (applyDefaults env2 r2) host2).withStatus
            ((setStatusURL (applyDefaults env2 r2) host2).Status.withConditions
              (env2.MarkUnknownTrafficError (Error.other msg).message)),
          tr2 ++ (trackedObjects t2).map
            (fun a => Event.Track (objectRef a) (setStatusURL (applyDefaults env2 r2) host2)))) := by
  have hct : configureTraffic env (setStatusURL (applyDefaults env r) host) tr =
      ((none, none),
        (setStatusURL (applyDefaults env r) host).withStatus
          ((setStatusURL (applyDefaults env r) host).Status.withConditions
            (env.MarkBadTrafficTarget name)),
        tr ++ (trackedObjects t).map
          (fun a => Event.Track (objectRef a) (setStatusURL (applyDefaults env r) host))) := by
    simp only [configureTraffic, hb, trackConfig_of_ok env _ t tr htrack]
  have hrec : reconcile env r tr =
      some (none,
        (setStatusURL (applyDefaults env r) host).withStatus
          ((setStatusURL (applyDefaults env r) host).Status.withConditions
            (env.MarkBadTrafficTarget name)),
        tr ++ (trackedObjects t).map
          (fun a => Event.Track (objectRef a) (setStatusURL (applyDefaults env r) host))) := by
    simp only [reconcile, hdel, Option.isSome_none, Bool.false_eq_true, if_false, hcu, hdn, hct]
  refine ⟨hct, hrec, ?_, ?_⟩
  · intro out hout
    rw [hrec] at hout
    simp only [Option.some.injEq] at hout
    subst hout
    refine ⟨?_, rfl, rfl⟩
    intro ev hev
    simp only [List.drop_left, List.mem_map] at hev
    obtain ⟨a, -, rfl⟩ := hev
    rfl
  · intro env2 r2 tr2 host2 t2 msg hdel2 hcu2 hdn2 hb2 htrack2
    have hct2 : configureTraffic env2 (setStatusURL (applyDefaults env2 r2) host2) tr2 =
        ((none, some (Error.other msg)),
          (setStatusURL (applyDefaults env2 r2) host2).withStatus
            ((setStatusURL (applyDefaults env2 r2) host2).Status.withConditions
              (env2.MarkUnknownTrafficError (Error.other msg).message)),
          tr2 ++ (trackedObjects t2).map
            (fun a =>
              Event.Track (objectRef a) (setStatusURL (applyDefaults env2 r2) host2))) := by
      simp only [configureTraffic, hb2, trackConfig_of_ok env2 _ t2 tr2 htrack2]
    simp only [reconcile, hdel2, Option.isSome_none, Bool.false_eq_true, if_false, hcu2, hdn2,
      hct2]

/-- Witness of C7: the resolver reports the target `config` as not ready and
returns the configuration it compiled; both of its objects are tracked, the
pass ends with nil.  With a resolver error that is not a `TargetError` the
pass returns that error. -/
theorem soft_target_error_absorbed_witness :
    reconcile softErrorEnv testRoute [] =
        some (none,
          (setStatusURL (applyDefaults softErrorEnv testRoute)
              "route.default.example.com").withStatus
            ((setStatusURL (applyDefaults softErrorEnv testRoute)
                "route.default.example.com").Status.withConditions
              (softErrorEnv.MarkBadTrafficTarget "config")),
          [] ++ (trackedObjects (some oneConfig)).map
            (fun a => Event.Track (objectRef a)
              (setStatusURL (applyDefaults softErrorEnv testRoute)
                "route.default.example.com"))) ∧
      reconcile hardErrorEnv testRoute [] =
        some (some (Error.other "timeout"),
          (setStatusURL (applyDefaults hardErrorEnv testRoute)
              "route.default.example.com").withStatus
            ((setStatusURL (applyDefaults hardErrorEnv testRoute)
                "route.default.example.com").Status.withConditions
              (hardErrorEnv.MarkUnknownTrafficError (Error.other "timeout").message)),
          [] ++ (trackedObjects none).map
            (fun a => Event.Track (objectRef a)
              (setStatusURL (applyDefaults hardErrorEnv testRoute)
                "route.default.example.com"))) :=
  have h := soft_target_error_absorbed softErrorEnv testRoute [] "route.default.example.com"
    (some oneConfig) "config" rfl rfl (by decide) rfl (fun _ _ => rfl)
  ⟨h.2.1,
    h.2.2.2 hardErrorEnv testRoute [] "route.default.example.com" none "timeout" rfl rfl
      (by decide) rfl (fun _ _ => rfl)⟩

/-! ## Status write-back -/

/-- With a primary URL, the loop body returns a status with a primary URL. -/
theorem applyCertificate_isSome (env : Env) (host : String) (rs : RouteStatus)
    (c : Certificate) (u : URL) (hurl : rs.URL = some u) :
    ∃ rs' u', applyCertificate env host rs c = some rs' ∧ rs'.URL = some u' := by
  unfold applyCertificate
  cases hr : c.IsReady <;> by_cases hc : host ∈ c.DNSNames <;>
    simp [hr, hc, hurl, RouteStatus.withConditions, setTargetsScheme]

/-- With a primary URL, the loop of `tls` returns. -/
theorem tlsLoop_isSome (env : Env) (host : String) (desired : List Certificate) :
    ∀ (r : Route) (acc : List IngressTLS) (tr : Trace) (u : URL), r.Status.URL = some u →
      ∃ out, tlsLoop env host desired r acc tr = some out := by
  induction desired with
  | nil => intro r acc tr u _; exact ⟨_, rfl⟩
  | cons d rest ih =>
    intro r acc tr u hurl
    unfold tlsLoop
    cases hrc : env.reconcileCertificate r d with
    | error err => exact ⟨_, rfl⟩
    | ok cert =>
      obtain ⟨rs', u', hap, hu'⟩ := applyCertificate_isSome env host r.Status cert u hurl
      simp only [hap]
      exact ih _ _ _ u' hu'

/-- With a primary URL, `tls` returns. -/
theorem tls_isSome (env : Env) (host : String) (r : Route) (traffic : Config) (tr : Trace)
    (u : URL) (hurl : r.Status.URL = some u) :
    ∃ out, tls env host r traffic tr = some out := by
  unfold tls
  split
  · exact ⟨_, rfl⟩
  · dsimp only
    cases hg : env.GetAllDomainsAndTags r (getTrafficNames traffic.Targets) with
    | error err => exact ⟨_, rfl⟩
    | ok m => exact tlsLoop_isSome env host _ r [] _ u hurl

/-- With a primary URL, `tls` does not end in a nil dereference. -/
theorem tls_ne_none (env : Env) (host : String) (r : Route) (traffic : Config) (tr : Trace)
    (u : URL) (h : tls env host r traffic tr = none) (hurl : r.Status.URL = some u) : False := by
  obtain ⟨out, hout⟩ := tls_isSome env host r traffic tr u hurl
  rw [hout] at h
  exact absurd h (by simp)

/-- The function `reconcile` returns on every route: the primary URL is set
before `tls` is called. -/
theorem reconcile_isSome (env : Env) (r : Route) (tr : Trace) :
    ∃ out, reconcile env r tr = some out := by
  unfold reconcile
  split
  · exact ⟨_, rfl⟩
  · dsimp only
    split
    · exact ⟨_, rfl⟩
    · split
      · exact ⟨_, rfl⟩
      · rename_i host hdn
        split
        · exact ⟨_, rfl⟩
        · exact ⟨_, rfl⟩
        · rename_i traffic r4 tr4 hct
          obtain ⟨-, -, hu4, -⟩ := configureTraffic_log_of_eq env _ tr _ _ _ hct
          split
          · exact ⟨_, rfl⟩
          · split
            · exact ⟨_, rfl⟩
            · split
              · exact ⟨_, rfl⟩
              · split
                · rename_i htls
                  exact (tls_ne_none env host _ traffic _ { Scheme := "http", Host := host }
                    htls hu4).elim
                · exact ⟨_, rfl⟩
                · split
                  · exact ⟨_, rfl⟩
                  · split
                    · exact ⟨_, rfl⟩
                    · split
                      · exact ⟨_, rfl⟩
                      · exact ⟨_, rfl⟩

/-- C6: for every key whose route is fetched, the inner pass `reconcile` returns
and logs no status write itself; `Reconcile` then logs `updateStatus` of the
working copy right after the inner pass exactly when the status of the working
copy differs from the status of the original, whatever error the inner pass
returned, and logs no other status write: with equal statuses the log of
`Reconcile` holds no `updateStatus` call, otherwise exactly one. -/
theorem Reconcile_writes_status_iff_changed (env : Env) (key ns name : String)
    (original : Route) (tr : Trace)
    (hkey : SplitMetaNamespaceKey key = some (ns, name))
    (hget : env.routeListerGet ns name = GetResult.found original) :
    ∃ (reconcileErr : Option Error) (route : Route) (tr1 : Trace) (res : Option Error)
      (tr2 rest : Trace),
      reconcile env original tr = some (reconcileErr, route, tr1) ∧
      Reconcile env key tr = some (res, tr2) ∧
      (tr1.drop tr.length).filter (fun ev => decide (ev.call = Call.updateStatus)) = [] ∧
      tr2 = tr1 ++ (if original.Status = route.Status then [] else [Event.updateStatus route])
        ++ rest ∧
      (tr2.drop tr.length).filter (fun ev => decide (ev.call = Call.updateStatus)) =
        (if original.Status = route.Status then [] else [Event.updateStatus route]) := by
  obtain ⟨⟨reconcileErr, route, tr1⟩, hrec⟩ := reconcile_isSome env original tr
  obtain ⟨ext, rfl, hA, -⟩ := reconcile_log env original tr reconcileErr route tr1 hrec
  have hext : ext.filter (fun ev => decide (ev.call = Call.updateStatus)) = [] := by
    rw [List.filter_eq_nil_iff]
    intro ev hev
    simpa using (hA ev hev).1
  -- whatever follows the status write is no status write
  have key_fact : ∀ (res : Option Error) (rest : Trace),
      (∀ ev ∈ rest, ev.call ≠ Call.updateStatus) →
      Reconcile env key tr = some (res,
        tr ++ ext ++ (if original.Status = route.Status then [] else [Event.updateStatus route])
          ++ rest) →
      ∃ (reconcileErr0 : Option Error) (route0 : Route) (tr1 : Trace) (res : Option Error)
        (tr2 rest : Trace),
        reconcile env original tr = some (reconcileErr0, route0, tr1) ∧
        Reconcile env key tr = some (res, tr2) ∧
        (tr1.drop tr.length).filter (fun ev => decide (ev.call = Call.updateStatus)) = [] ∧
        tr2 = tr1 ++
          (if original.Status = route0.Status then [] else [Event.updateStatus route0]) ++ rest ∧
        (tr2.drop tr.length).filter (fun ev => decide (ev.call = Call.updateStatus)) =
          (if original.Status = route0.Status then [] else [Event.updateStatus route0]) := by
    intro res rest hrest hR
    have hrestf : rest.filter (fun ev => decide (ev.call = Call.updateStatus)) = [] := by
      rw [List.filter_eq_nil_iff]
      intro ev hev
      simpa using hrest ev hev
    refine ⟨reconcileErr, route, tr ++ ext, res, _, rest, hrec, hR, by simpa using hext, rfl, ?_⟩
    by_cases hs : original.Status = route.Status
    · simp [hs, List.append_assoc, hext, hrestf]
    · have hone : [Event.updateStatus route].filter
          (fun ev => decide (ev.call = Call.updateStatus)) = [Event.updateStatus route] := by
        simp [Event.call]
      simp only [hs, if_false, List.append_assoc, List.drop_left, List.filter_append, hext,
        hrestf, hone, List.nil_append, List.append_nil]
  by_cases hs : original.Status = route.Status
  · cases reconcileErr with
    | some rerr =>
      refine key_fact (some rerr) [Event.RecorderEvent route "InternalError" rerr]
        (by simp [Event.call]) ?_
      simp [Reconcile, hkey, hget, hrec, hs]
    | none =>
      by_cases hspec : original.Spec = route.Spec
      · refine key_fact none [] (by simp) ?_
        simp [Reconcile, hkey, hget, hrec, hs, hspec]
      · refine key_fact (env.MarkNeedsUpgrade route.Namespace route.Name)
          [Event.MarkNeedsUpgrade route.Namespace route.Name] (by simp [Event.call]) ?_
        simp [Reconcile, hkey, hget, hrec, hs, hspec]
  · cases hup : env.updateStatus route with
    | some uerr =>
      refine key_fact (some uerr) [Event.RecorderEvent route "UpdateFailed" uerr]
        (by simp [Event.call]) ?_
      simp [Reconcile, hkey, hget, hrec, hs, hup]
    | none =>
      cases reconcileErr with
      | some rerr =>
        refine key_fact (some rerr) [Event.RecorderEvent route "InternalError" rerr]
          (by simp [Event.call]) ?_
        simp [Reconcile, hkey, hget, hrec, hs, hup]
      | none =>
        by_cases hspec : original.Spec = route.Spec
        · refine key_fact none [] (by simp) ?_
          simp [Reconcile, hkey, hget, hrec, hs, hup, hspec]
        · refine key_fact (env.MarkNeedsUpgrade route.Namespace route.Name)
            [Event.MarkNeedsUpgrade route.Namespace route.Name] (by simp [Event.call]) ?_
          simp [Reconcile, hkey, hget, hrec, hs, hup, hspec]

/-- Witness of C6 on the key `default/route`, once with the lister holding
`testRoute` (the pass sets the primary URL, so the status changes) and once
holding `deferredRoute` (the deletion path leaves the status as it is). -/
theorem Reconcile_writes_status_iff_changed_witness :
    SplitMetaNamespaceKey "default/route" = some ("default", "route") ∧
      (∃ (reconcileErr : Option Error) (route : Route) (tr1 : Trace) (res : Option Error)
        (tr2 rest : Trace),
        reconcile (listerEnv testRoute) testRoute [] = some (reconcileErr, route, tr1) ∧
        Reconcile (listerEnv testRoute) "default/route" [] = some (res, tr2) ∧
        (tr1.drop ([] : Trace).length).filter
          (fun ev => decide (ev.call = Call.updateStatus)) = [] ∧
        tr2 = tr1 ++
          (if testRoute.Status = route.Status then [] else [Event.updateStatus route]) ++ rest ∧
        (tr2.drop ([] : Trace).length).filter
            (fun ev => decide (ev.call = Call.updateStatus)) =
          (if testRoute.Status = route.Status then [] else [Event.updateStatus route])) ∧
      (∃ (reconcileErr : Option Error) (route : Route) (tr1 : Trace) (res : Option Error)
        (tr2 rest : Trace),
        reconcile (listerEnv deferredRoute) deferredRoute [] = some (reconcileErr, route, tr1) ∧
        Reconcile (listerEnv deferredRoute) "default/route" [] = some (res, tr2) ∧
        (tr1.drop ([] : Trace).length).filter
          (fun ev => decide (ev.call = Call.updateStatus)) = [] ∧
        tr2 = tr1 ++
          (if deferredRoute.Status = route.Status then [] else [Event.updateStatus route]) ++
            rest ∧
        (tr2.drop ([] : Trace).length).filter
            (fun ev => decide (ev.call = Call.updateStatus)) =
          (if deferredRoute.Status = route.Status then [] else [Event.updateStatus route])) :=
  ⟨by decide,
    Reconcile_writes_status_iff_changed (listerEnv testRoute) "default/route" "default" "route"
      testRoute [] (by decide) (by decide),
    Reconcile_writes_status_iff_changed (listerEnv deferredRoute) "default/route" "default"
      "route" deferredRoute [] (by decide) (by decide)⟩

/-- The two passes of the witness of C6, evaluated: one status write for
`testRoute`, none for `deferredRoute`. -/
theorem Reconcile_status_writes_evaluated :
    ((Reconcile (listerEnv testRoute) "default/route" []).map
        (fun out => (out.2.filter (fun ev => decide (ev.call = Call.updateStatus))).length)) =
        some 1 ∧
      ((Reconcile (listerEnv deferredRoute) "default/route" []).map
        (fun out => (out.2.filter (fun ev => decide (ev.call = Call.updateStatus))).length)) =
        some 0 := by
  decide

/-! ## Frame of `setTargetsScheme` -/

/-- The any-test of `setTargetScheme` is membership of the host. -/
theorem any_host_eq (dnsNames : List String) (host : String) :
    (dnsNames.any fun dnsName => host == dnsName) = true ↔ host ∈ dnsNames := by
  rw [List.any_eq_true]
  constructor
  · rintro ⟨x, hx, heq⟩
    have hxe : host = x := by simpa using heq
    exact hxe ▸ hx
  · intro h
    exact ⟨host, h, by simp⟩

/-- One target through `setTargetScheme`: a covered URL gets the scheme, any
other target is unchanged, and nothing but the scheme of the URL changes. -/
theorem setTargetScheme_frame (dnsNames : List String) (scheme : String) (t : TrafficTarget) :
    (∀ u, t.URL = some u → u.Host ∈ dnsNames →
      setTargetScheme dnsNames scheme t = { t with URL := some { u with Scheme := scheme } }) ∧
    (t.URL = none → setTargetScheme dnsNames scheme t = t) ∧
    (∀ u, t.URL = some u → u.Host ∉ dnsNames → setTargetScheme dnsNames scheme t = t) ∧
    (setTargetScheme dnsNames scheme t).Tag = t.Tag ∧
    (setTargetScheme dnsNames scheme t).RevisionName = t.RevisionName ∧
    (setTargetScheme dnsNames scheme t).ConfigurationName = t.ConfigurationName ∧
    (setTargetScheme dnsNames scheme t).Percent = t.Percent ∧
    (setTargetScheme dnsNames scheme t).URL.map (fun u => (u.Host, u.rest)) =
      t.URL.map (fun u => (u.Host, u.rest)) := by
  cases hu : t.URL with
  | none => simp [setTargetScheme, hu]
  | some u =>
    by_cases hc : u.Host ∈ dnsNames
    · have hany := (any_host_eq dnsNames u.Host).2 hc
      simp [setTargetScheme, hu, hany, hc]
    · have hany : (dnsNames.any fun dnsName => u.Host == dnsName) = false := by
        rw [Bool.eq_false_iff]
        exact fun h => hc ((any_host_eq dnsNames u.Host).1 h)
      simp [setTargetScheme, hu, hany, hc]

/-- Applying `setTargetScheme` twice is applying it once. -/
theorem setTargetScheme_idem (dnsNames : List String) (scheme : String) (t : TrafficTarget) :
    setTargetScheme dnsNames scheme (setTargetScheme dnsNames scheme t) =
      setTargetScheme dnsNames scheme t := by
  cases hu : t.URL with
  | none => simp [setTargetScheme, hu]
  | some u =>
    by_cases hany : (dnsNames.any fun dnsName => u.Host == dnsName) = true
    · simp [setTargetScheme, hu, hany]
    · simp [setTargetScheme, hu, hany]

/-- C13: `setTargetsScheme` keeps the number and the order of the resolved
targets; at every position, a target whose URL is not nil and whose host is one
of the DNS names gets the scheme `scheme` on that URL, every other target (nil
URL, or host not among the DNS names) is unchanged, and in every target the
tag, revision, configuration, percent and the host and remaining fields of the
URL stay as they were; no other field of the status changes; applying it
twice with the same arguments gives the same status as applying it once. -/
theorem setTargetsScheme_changes_only_matching_scheme (rs : RouteStatus)
    (dnsNames : List String) (scheme : String) :
    (setTargetsScheme rs dnsNames scheme).Traffic.length = rs.Traffic.length ∧
    (∀ (i : Nat) (t : TrafficTarget), rs.Traffic[i]? = some t →
      ∃ t', (setTargetsScheme rs dnsNames scheme).Traffic[i]? = some t' ∧
        (∀ u, t.URL = some u → u.Host ∈ dnsNames →
          t' = { t with URL := some { u with Scheme := scheme } }) ∧
        (t.URL = none → t' = t) ∧
        (∀ u, t.URL = some u → u.Host ∉ dnsNames → t' = t) ∧
        t'.Tag = t.Tag ∧ t'.RevisionName = t.RevisionName ∧
        t'.ConfigurationName = t.ConfigurationName ∧ t'.Percent = t.Percent ∧
        t'.URL.map (fun u => (u.Host, u.rest)) = t.URL.map (fun u => (u.Host, u.rest))) ∧
    { setTargetsScheme rs dnsNames scheme with Traffic := rs.Traffic } = rs ∧
    setTargetsScheme (setTargetsScheme rs dnsNames scheme) dnsNames scheme =
      setTargetsScheme rs dnsNames scheme := by
  refine ⟨by simp [setTargetsScheme], ?_, rfl, ?_⟩
  · intro i t hi
    refine ⟨setTargetScheme dnsNames scheme t, ?_, setTargetScheme_frame dnsNames scheme t⟩
    simp [setTargetsScheme, List.getElem?_map, hi]
  · simp only [setTargetsScheme, List.map_map]
    congr 1
    apply List.map_congr_left
    intro t _
    exact setTargetScheme_idem dnsNames scheme t

/-! ## Order of the finalizer and the child resources -/

/-- An `ensureFinalizer` that logged a patch returned what the patch returned. -/
theorem ensureFinalizer_patch_result (env : Env) (route : Route) (tr : Trace)
    (e : Option Error) (ext : Trace)
    (h : ensureFinalizer env route tr = (e, tr ++ ext)) :
    ∀ ns name patch, Event.RoutesPatch ns name patch ∈ ext →
      e = env.RoutesPatch ns name patch := by
  intro ns name patch hmem
  unfold ensureFinalizer at h
  split at h
  · simp only [Prod.mk.injEq] at h
    have hnil : ext = [] := by simpa using h.2.symm
    rw [hnil] at hmem
    exact absurd hmem (List.not_mem_nil _)
  · simp only [Prod.mk.injEq, List.append_cancel_left_eq] at h
    obtain ⟨he, hext⟩ := h
    rw [← hext] at hmem
    simp only [List.mem_singleton, Event.RoutesPatch.injEq] at hmem
    obtain ⟨rfl, rfl, rfl⟩ := hmem
    exact he.symm

/-- The exits of a returning `reconcile`.  Its log is made of calls before
`ensureFinalizer` (`a`), the patch of `ensureFinalizer` (`b`) and child
resource calls (`c`).  Either the pass ended before `ensureFinalizer` returned
nil, with no child resource call and, when `ensureFinalizer` was reached, with
its error; or `ensureFinalizer` returned nil on the route and the pass then
either failed or ran to completion. -/
theorem reconcile_exits (env : Env) (r : Route) (tr : Trace) (res : Option Error)
    (r' : Route) (tr' : Trace) (h : reconcile env r tr = some (res, r', tr')) :
    ∃ a b c, tr' = tr ++ a ++ b ++ c ∧
      (∀ ev ∈ a, ev.call ∈ callsBeforeFinalizer) ∧
      (∀ ev ∈ c, ev.call ∈ childResourceCalls) ∧
      ((c = [] ∧
          (b = [] ∨ ∃ r5 err, ensureFinalizer env r5 (tr ++ a) = (some err, tr ++ a ++ b) ∧
            res = some err ∧
            (r5.Finalizers = r.Finalizers ∧ r5.Namespace = r.Namespace ∧ r5.Name = r.Name ∧
              r5.ResourceVersion = r.ResourceVersion))) ∨
        ∃ r5, ensureFinalizer env r5 (tr ++ a) = (none, tr ++ a ++ b) ∧
          (r5.Finalizers = r.Finalizers ∧ r5.Namespace = r.Namespace ∧ r5.Name = r.Name ∧
            r5.ResourceVersion = r.ResourceVersion) ∧
          ((∃ err, res = some err) ∨ (res = none ∧ CompletePass env r tr r'))) := by
  -- exits before `ensureFinalizer` is reached
  have early : ∀ (a : Trace) (res0 : Option Error) (r0 : Route),
      (∀ ev ∈ a, ev.call ∈ callsBeforeFinalizer) →
      ∃ a0 b c, tr ++ a = tr ++ a0 ++ b ++ c ∧
        (∀ ev ∈ a0, ev.call ∈ callsBeforeFinalizer) ∧
        (∀ ev ∈ c, ev.call ∈ childResourceCalls) ∧
        ((c = [] ∧
            (b = [] ∨ ∃ r5 err, ensureFinalizer env r5 (tr ++ a0) = (some err, tr ++ a0 ++ b) ∧
              res0 = some err ∧
              (r5.Finalizers = r.Finalizers ∧ r5.Namespace = r.Namespace ∧ r5.Name = r.Name ∧
                r5.ResourceVersion = r.ResourceVersion))) ∨
          ∃ r5, ensureFinalizer env r5 (tr ++ a0) = (none, tr ++ a0 ++ b) ∧
            (r5.Finalizers = r.Finalizers ∧ r5.Namespace = r.Namespace ∧ r5.Name = r.Name ∧
              r5.ResourceVersion = r.ResourceVersion) ∧
            ((∃ err, res0 = some err) ∨ (res0 = none ∧ CompletePass env r tr r0))) := by
    intro a res0 r0 ha
    exact ⟨a, [], [], by simp, ha, by simp, Or.inl ⟨rfl, Or.inl rfl⟩⟩
  unfold reconcile at h
  split at h
  · simp only [Option.some.injEq] at h
    obtain ⟨ext, hext, hcalls⟩ := reconcileDeletion_log env r tr
    rw [h] at hext
    simp only at hext
    rw [hext]
    refine early ext res r' (fun ev hev => ?_)
    rcases hcalls ev hev with h1 | h1 <;> simp [h1, callsBeforeFinalizer]
  · rename_i hdel
    dsimp only at h
    split at h
    · simp only [Option.some.injEq, Prod.mk.injEq] at h
      obtain ⟨-, -, rfl⟩ := h
      have he := early [] res r' (by simp)
      simp only [List.append_nil] at he
      exact he
    · rename_i hcu
      split at h
      · simp only [Option.some.injEq, Prod.mk.injEq] at h
        obtain ⟨-, -, rfl⟩ := h
        have he := early [] res r' (by simp)
        simp only [List.append_nil] at he
        exact he
      · rename_i host hdn
        split at h
        · rename_i fst err r4 tr4 hct
          simp only [Option.some.injEq, Prod.mk.injEq] at h
          obtain ⟨-, -, rfl⟩ := h
          obtain ⟨⟨ext4, rfl, hc4⟩, -⟩ := configureTraffic_log_of_eq env _ tr _ _ _ hct
          exact early ext4 res r' (fun ev hev => by simp [hc4 ev hev, callsBeforeFinalizer])
        · rename_i r4 tr4 hct
          simp only [Option.some.injEq, Prod.mk.injEq] at h
          obtain ⟨-, -, rfl⟩ := h
          obtain ⟨⟨ext4, rfl, hc4⟩, -⟩ := configureTraffic_log_of_eq env _ tr _ _ _ hct
          exact early ext4 res r' (fun ev hev => by simp [hc4 ev hev, callsBeforeFinalizer])
        · rename_i traffic r4 tr4 hct
          obtain ⟨⟨ext4, rfl, hc4⟩, hr4, -⟩ := configureTraffic_log_of_eq env _ tr _ _ _ hct
          have ha5 : ∀ ev ∈ ext4 ++ [Event.reconcileTargetRevisions traffic r4],
              ev.call ∈ callsBeforeFinalizer := by
            intro ev hev
            rcases List.mem_append.1 hev with h1 | h1
            · simp [hc4 ev h1, callsBeforeFinalizer]
            · simp only [List.mem_singleton] at h1
              subst h1
              simp [Event.call, callsBeforeFinalizer]
          have hmeta : (setStatusAddress env r4).Finalizers = r.Finalizers ∧
              (setStatusAddress env r4).Namespace = r.Namespace ∧
              (setStatusAddress env r4).Name = r.Name ∧
              (setStatusAddress env r4).ResourceVersion = r.ResourceVersion := by
            refine ⟨?_, ?_, ?_, ?_⟩
            · have hf := congrArg Route.Finalizers hr4
              exact hf
            · have hf := congrArg Route.Namespace hr4
              exact hf
            · have hf := congrArg Route.Name hr4
              exact hf
            · have hf := congrArg Route.ResourceVersion hr4
              exact hf
          split at h
          · simp only [Option.some.injEq, Prod.mk.injEq] at h
            obtain ⟨-, -, rfl⟩ := h
            have he := early _ res r' ha5
            simpa [List.append_assoc] using he
          · rename_i hrt
            split at h
            · rename_i err tr6 hef
              simp only [Option.some.injEq, Prod.mk.injEq] at h
              obtain ⟨rfl, -, rfl⟩ := h
              obtain ⟨ext6, rfl, hc6⟩ := ensureFinalizer_log_of_eq env _ _ _ _ hef
              exact ⟨ext4 ++ [Event.reconcileTargetRevisions traffic r4], ext6, [],
                by simp [List.append_assoc], ha5, by simp,
                Or.inl ⟨rfl, Or.inr ⟨setStatusAddress env r4, err,
                  by simpa [List.append_assoc, setStatusAddress] using hef, rfl, hmeta⟩⟩⟩
            · rename_i tr6 hef0
              obtain ⟨ext6, rfl, hc6⟩ := ensureFinalizer_log_of_eq env _ _ _ _ hef0
              have hef : ensureFinalizer env (setStatusAddress env r4)
                  (tr ++ (ext4 ++ [Event.reconcileTargetRevisions traffic r4])) =
                  (none, tr ++ (ext4 ++ [Event.reconcileTargetRevisions traffic r4]) ++ ext6) := by
                simpa [List.append_assoc, setStatusAddress] using hef0
              split at h
              · simp only [Option.some.injEq, Prod.mk.injEq] at h
                obtain ⟨rfl, rfl, rfl⟩ := h
                exact ⟨ext4 ++ [Event.reconcileTargetRevisions traffic r4], ext6,
                  [Event.reconcilePlaceholderServices (setStatusAddress env r4) traffic.Targets],
                  by simp [List.append_assoc, setStatusAddress], ha5,
                  by simp [Event.call, childResourceCalls],
                  Or.inr ⟨setStatusAddress env r4, hef, hmeta, Or.inl ⟨_, rfl⟩⟩⟩
              · rename_i services hps
                split at h
                · exact absurd h (by simp)
                · rename_i fst err r8 tr8 htls
                  obtain ⟨ext8, rfl, hc8, -⟩ := tls_error_entry env _ _ _ _ _ _ _ htls
                  simp only [Option.some.injEq, Prod.mk.injEq] at h
                  obtain ⟨rfl, rfl, rfl⟩ := h
                  refine ⟨ext4 ++ [Event.reconcileTargetRevisions traffic r4], ext6,
                    [Event.reconcilePlaceholderServices (setStatusAddress env r4) traffic.Targets] ++ ext8,
                    by simp [List.append_assoc, setStatusAddress], ha5, ?_,
                    Or.inr ⟨setStatusAddress env r4, hef, hmeta, Or.inl ⟨_, rfl⟩⟩⟩
                  intro ev hev
                  simp only [List.mem_append, List.mem_singleton] at hev
                  rcases hev with rfl | h8
                  · simp [Event.call, childResourceCalls]
                  · rcases hc8 ev h8 with h1 | h1 <;> simp [h1, childResourceCalls]
                · rename_i tlsv r8 tr8 htls
                  obtain ⟨ext8, rfl, hc8, -⟩ := tls_error_entry env _ _ _ _ _ _ _ htls
                  split at h
                  · simp only [Option.some.injEq, Prod.mk.injEq] at h
                    obtain ⟨rfl, rfl, rfl⟩ := h
                    refine ⟨ext4 ++ [Event.reconcileTargetRevisions traffic r4], ext6,
                      [Event.reconcilePlaceholderServices (setStatusAddress env r4) traffic.Targets] ++ ext8 ++
                          [Event.MakeClusterIngress r8 traffic (tlsv.getD []) (ingressClassForRoute env r8)],
                      by simp [List.append_assoc, setStatusAddress], ha5, ?_,
                      Or.inr ⟨setStatusAddress env r4, hef, hmeta, Or.inl ⟨_, rfl⟩⟩⟩
                    intro ev hev
                    simp only [List.mem_append, List.mem_singleton, List.mem_cons, List.mem_nil_iff,
                      or_false] at hev
                    rcases hev with (rfl | h8) | hp
                    · simp [Event.call, childResourceCalls]
                    · rcases hc8 ev h8 with h1 | h1 <;> simp [h1, childResourceCalls]
                    · subst hp
                      simp [Event.call, childResourceCalls]
                  · rename_i desired hmk
                    split at h
                    · simp only [Option.some.injEq, Prod.mk.injEq] at h
                      obtain ⟨rfl, rfl, rfl⟩ := h
                      refine ⟨ext4 ++ [Event.reconcileTargetRevisions traffic r4], ext6,
                        [Event.reconcilePlaceholderServices (setStatusAddress env r4) traffic.Targets] ++ ext8 ++
                            [Event.MakeClusterIngress r8 traffic (tlsv.getD []) (ingressClassForRoute env r8),
                              Event.reconcileClusterIngress r8 desired],
                        by simp [List.append_assoc, setStatusAddress], ha5, ?_,
                        Or.inr ⟨setStatusAddress env r4, hef, hmeta, Or.inl ⟨_, rfl⟩⟩⟩
                      intro ev hev
                      simp only [List.mem_append, List.mem_singleton, List.mem_cons, List.mem_nil_iff,
                        or_false] at hev
                      rcases hev with (rfl | h8) | hp
                      · simp [Event.call, childResourceCalls]
                      · rcases hc8 ev h8 with h1 | h1 <;> simp [h1, childResourceCalls]
                      · rcases hp with rfl | rfl | rfl <;> simp [Event.call, childResourceCalls]
                    · rename_i ci hrc
                      split at h
                      · simp only [Option.some.injEq, Prod.mk.injEq] at h
                        obtain ⟨rfl, rfl, rfl⟩ := h
                        refine ⟨ext4 ++ [Event.reconcileTargetRevisions traffic r4], ext6,
                          [Event.reconcilePlaceholderServices (setStatusAddress env r4) traffic.Targets] ++ ext8 ++
                              [Event.MakeClusterIngress r8 traffic (tlsv.getD []) (ingressClassForRoute env r8),
                                Event.reconcileClusterIngress r8 desired,
                                Event.updatePlaceholderServices (r8.withStatus (env.PropagateClusterIngressStatus ci.Status r8.Status)) services ci],
                          by simp [List.append_assoc, setStatusAddress], ha5, ?_,
                          Or.inr ⟨setStatusAddress env r4, hef, hmeta, Or.inl ⟨_, rfl⟩⟩⟩
                        intro ev hev
                        simp only [List.mem_append, List.mem_singleton, List.mem_cons, List.mem_nil_iff,
                          or_false] at hev
                        rcases hev with (rfl | h8) | hp
                        · simp [Event.call, childResourceCalls]
                        · rcases hc8 ev h8 with h1 | h1 <;> simp [h1, childResourceCalls]
                        · rcases hp with rfl | rfl | rfl <;> simp [Event.call, childResourceCalls]
                      · rename_i hup
                        simp only [Option.some.injEq, Prod.mk.injEq] at h
                        obtain ⟨rfl, rfl, rfl⟩ := h
                        refine ⟨ext4 ++ [Event.reconcileTargetRevisions traffic r4], ext6,
                          [Event.reconcilePlaceholderServices (setStatusAddress env r4) traffic.Targets] ++ ext8 ++
                              [Event.MakeClusterIngress r8 traffic (tlsv.getD []) (ingressClassForRoute env r8),
                                Event.reconcileClusterIngress r8 desired,
                                Event.updatePlaceholderServices (r8.withStatus (env.PropagateClusterIngressStatus ci.Status r8.Status)) services ci],
                          by simp [List.append_assoc, setStatusAddress], ha5, ?_,
                          Or.inr ⟨setStatusAddress env r4, hef, hmeta, Or.inr ⟨rfl, host, traffic, r4, _, _, _, services, tlsv, r8, desired, ci,
                            by simpa using hdel, hcu, hdn, hct, hrt, hps, htls, hmk, hrc, hup, rfl⟩⟩⟩
                        intro ev hev
                        simp only [List.mem_append, List.mem_singleton, List.mem_cons, List.mem_nil_iff,
                          or_false] at hev
                        rcases hev with (rfl | h8) | hp
                        · simp [Event.call, childResourceCalls]
                        · rcases hc8 ev h8 with h1 | h1 <;> simp [h1, childResourceCalls]
                        · rcases hp with rfl | rfl | rfl <;> simp [Event.call, childResourceCalls]

/-- C11: in every returning pass of `reconcile`, either no child resource call
(placeholder services, certificates, ClusterIngress) is logged, or the log
splits into the calls before `ensureFinalizer`, the patch of an
`ensureFinalizer` call on the route that returned nil, and the rest, with no
child resource call in the first two parts; that `ensureFinalizer` either
found the finalizer and logged nothing or logged the patch that appends it,
which returned nil.  When the log holds a patch of the route that returned an
error, `reconcile` returns that error and logs no child resource call (none of
`reconcilePlaceholderServices`, `reconcileCertificate`,
`reconcileClusterIngress`, `updatePlaceholderServices`). -/
theorem finalizer_ensured_before_children (env : Env) (r : Route) (tr : Trace)
    (res : Option Error) (r' : Route) (tr' : Trace)
    (h : reconcile env r tr = some (res, r', tr')) :
    ((∀ ev ∈ tr'.drop tr.length, ev.call ∉ childResourceCalls) ∨
      ∃ r5 pre mid post, tr'.drop tr.length = pre ++ mid ++ post ∧
        ensureFinalizer env r5 (tr ++ pre) = (none, tr ++ pre ++ mid) ∧
        (r5.Finalizers = r.Finalizers ∧ r5.Namespace = r.Namespace ∧ r5.Name = r.Name ∧
          r5.ResourceVersion = r.ResourceVersion) ∧
        (∀ ev ∈ pre ++ mid, ev.call ∉ childResourceCalls) ∧
        ((routeFinalizer ∈ r.Finalizers ∧ mid = []) ∨
          (routeFinalizer ∉ r.Finalizers ∧
            mid = [Event.RoutesPatch r.Namespace r.Name
              { finalizers := r.Finalizers ++ [routeFinalizer],
                resourceVersion := r.ResourceVersion }] ∧
            env.RoutesPatch r.Namespace r.Name
              { finalizers := r.Finalizers ++ [routeFinalizer],
                resourceVersion := r.ResourceVersion } = none))) ∧
    (∀ ns name patch err, Event.RoutesPatch ns name patch ∈ tr'.drop tr.length →
      env.RoutesPatch ns name patch = some err →
      res = some err ∧ ∀ ev ∈ tr'.drop tr.length, ev.call ∉ childResourceCalls) := by
  obtain ⟨a, b, c, rfl, ha, hc, hcase⟩ := reconcile_exits env r tr res r' tr' h
  have hdrop : (tr ++ a ++ b ++ c).drop tr.length = a ++ b ++ c := by
    simp [List.append_assoc]
  rw [hdrop]
  have hna : ∀ ev ∈ a, ev.call ∉ childResourceCalls := by
    intro ev hev
    have := ha ev hev
    revert this
    cases ev.call <;> simp [callsBeforeFinalizer, childResourceCalls]
  have hnb : ∀ (r5 : Route) (e : Option Error),
      ensureFinalizer env r5 (tr ++ a) = (e, tr ++ a ++ b) →
      ∀ ev ∈ b, ev.call ∉ childResourceCalls := by
    intro r5 e hef ev hev
    obtain ⟨ext, hext, hcalls⟩ := ensureFinalizer_log_of_eq env r5 (tr ++ a) e _ hef
    have hb : b = ext := by simpa using hext
    rw [hb] at hev
    simp [hcalls ev hev, childResourceCalls]
  rcases hcase with ⟨rfl, hb⟩ | ⟨r5, hef, hmeta, hres⟩
  · -- the pass ended before `ensureFinalizer` returned nil
    have hnone : ∀ ev ∈ a ++ b ++ [], ev.call ∉ childResourceCalls := by
      intro ev hev
      simp only [List.append_nil, List.mem_append] at hev
      rcases hev with h1 | h1
      · exact hna ev h1
      · rcases hb with rfl | ⟨r5, err, hef, -, -⟩
        · exact absurd h1 (List.not_mem_nil _)
        · exact hnb r5 _ hef ev h1
    refine ⟨Or.inl hnone, ?_⟩
    intro ns name patch err hmem horacle
    refine ⟨?_, hnone⟩
    simp only [List.append_nil, List.mem_append] at hmem
    rcases hmem with h1 | h1
    · have := ha _ h1
      simp [Event.call, callsBeforeFinalizer] at this
    · rcases hb with rfl | ⟨r5, err0, hef, hres, -⟩
      · exact absurd h1 (List.not_mem_nil _)
      · have he := ensureFinalizer_patch_result env r5 (tr ++ a) _ b hef ns name patch h1
        rw [hres, he, horacle]
  · -- `ensureFinalizer` returned nil
    refine ⟨Or.inr ⟨r5, a, b, c, rfl, hef, hmeta, ?_, ?_⟩, ?_⟩
    · intro ev hev
      rcases List.mem_append.1 hev with h1 | h1
      · exact hna ev h1
      · exact hnb r5 _ hef ev h1
    · obtain ⟨hfin, hns, hname, hrv⟩ := hmeta
      by_cases hin : routeFinalizer ∈ r.Finalizers
      · left
        refine ⟨hin, ?_⟩
        have hin5 : routeFinalizer ∈ r5.Finalizers := by rw [hfin]; exact hin
        simp only [ensureFinalizer, hin5, if_true, Prod.mk.injEq] at hef
        simpa using hef.2.symm
      · right
        have hin5 : routeFinalizer ∉ r5.Finalizers := by rw [hfin]; exact hin
        simp only [ensureFinalizer, hin5, if_false] at hef
        simp only [Prod.mk.injEq, List.append_cancel_left_eq, hfin, hns, hname, hrv] at hef
        exact ⟨hin, hef.2.symm, hef.1⟩
    · intro ns name patch err hmem horacle
      exfalso
      simp only [List.mem_append] at hmem
      rcases hmem with (h1 | h1) | h1
      · have := ha _ h1
        simp [Event.call, callsBeforeFinalizer] at this
      · have he := ensureFinalizer_patch_result env r5 (tr ++ a) _ b hef ns name patch h1
        rw [horacle] at he
        exact absurd he (by simp)
      · have := hc _ h1
        simp [Event.call, childResourceCalls] at this

/-- The two passes used as witness of C11, evaluated: with a failing patch the
pass returns the error of the patch after the calls `reconcileTargetRevisions`
and `RoutesPatch`; with collaborators that succeed the patch precedes every
child resource call. -/
theorem reconcile_finalizer_passes :
    reconcile patchFailsEnv testRoute [] =
        some (patchFailsOut.1, patchFailsOut.2.1, patchFailsOut.2.2) ∧
      patchFailsOut.1 = some (Error.other "conflict") ∧
      patchFailsOut.2.2.map Event.call = [Call.reconcileTargetRevisions, Call.RoutesPatch] ∧
      reconcile okEnv testRoute [] = some (okOut.1, okOut.2.1, okOut.2.2) ∧
      okOut.1 = none ∧
      okOut.2.2.map Event.call =
        [Call.reconcileTargetRevisions, Call.RoutesPatch, Call.reconcilePlaceholderServices,
          Call.GetAllDomainsAndTags, Call.MakeClusterIngress, Call.reconcileClusterIngress,
          Call.updatePlaceholderServices] := by
  decide

/-- Witness of C11: on the test route, whose finalizer list is empty, a failing
patch ends the pass with the error of the patch and without child resource
call; with collaborators that succeed, the pass has child resource calls, so
its log splits around a successful `ensureFinalizer`. -/
theorem finalizer_ensured_before_children_witness :
    (patchFailsOut.1 = some (Error.other "conflict") ∧
        ∀ ev ∈ patchFailsOut.2.2.drop ([] : Trace).length, ev.call ∉ childResourceCalls) ∧
      ∃ r5 pre mid post, okOut.2.2.drop ([] : Trace).length = pre ++ mid ++ post ∧
        ensureFinalizer okEnv r5 ([] ++ pre) = (none, [] ++ pre ++ mid) ∧
        (r5.Finalizers = testRoute.Finalizers ∧ r5.Namespace = testRoute.Namespace ∧
          r5.Name = testRoute.Name ∧ r5.ResourceVersion = testRoute.ResourceVersion) ∧
        (∀ ev ∈ pre ++ mid, ev.call ∉ childResourceCalls) ∧
        ((routeFinalizer ∈ testRoute.Finalizers ∧ mid = []) ∨
          (routeFinalizer ∉ testRoute.Finalizers ∧
            mid = [Event.RoutesPatch testRoute.Namespace testRoute.Name
              { finalizers := testRoute.Finalizers ++ [routeFinalizer],
                resourceVersion := testRoute.ResourceVersion }] ∧
            okEnv.RoutesPatch testRoute.Namespace testRoute.Name
              { finalizers := testRoute.Finalizers ++ [routeFinalizer],
                resourceVersion := testRoute.ResourceVersion } = none)) :=
  have hfail := finalizer_ensured_before_children patchFailsEnv testRoute []
    patchFailsOut.1 patchFailsOut.2.1 patchFailsOut.2.2 reconcile_finalizer_passes.1
  have hok := finalizer_ensured_before_children okEnv testRoute []
    okOut.1 okOut.2.1 okOut.2.2 reconcile_finalizer_passes.2.2.2.1
  ⟨hfail.2 "default" "route" testPatch (Error.other "conflict") (by decide) rfl,
    hok.1.resolve_left (fun hnone =>
      absurd (hnone (Event.reconcilePlaceholderServices
          (setStatusAddress okEnv
            (configureTraffic okEnv
              (setStatusURL (applyDefaults okEnv testRoute) "route.default.example.com") []).2.1)
          []) (by decide))
        (by decide))⟩

/-! ## Dependence of the resulting status on the status at the start -/

/-- Two routes differ only in their status when all their other fields agree. -/
theorem sameObject_iff (a b : Route) :
    sameObject a b ↔
      a.Name = b.Name ∧ a.Namespace = b.Namespace ∧ a.UID = b.UID ∧
      a.ResourceVersion = b.ResourceVersion ∧ a.Generation = b.Generation ∧
      a.DeletionTimestamp = b.DeletionTimestamp ∧ a.Finalizers = b.Finalizers ∧
      a.Labels = b.Labels ∧ a.Annotations = b.Annotations ∧ a.Spec = b.Spec := by
  cases a
  cases b
  simp [sameObject, Route.withStatus]

/-- The collaborators of `okEnv` do not read the route status. -/
theorem statusBlind_okEnv : StatusBlind okEnv := by
  constructor
  · intro a b _; rfl
  · intro a b name h
    have hns := ((sameObject_iff a b).1 h).2.1
    simp [okEnv, hns]
  · intro a b _; rfl
  · intro t a b _; rfl
  · intro a b h
    have hn := ((sameObject_iff a b).1 h).1
    have hns := ((sameObject_iff a b).1 h).2.1
    simp [okEnv, hn, hns]
  · intro a b names _; rfl
  · intro a b d _; rfl
  · intro a b t tls cls h
    have hn := ((sameObject_iff a b).1 h).1
    simp [okEnv, hn]
  · intro a b d _; rfl
  · intro cs rs
    simp [okEnv, RouteStatus.withConditions]

/-- The collaborators of `softErrorEnv` do not read the route status. -/
theorem statusBlind_softErrorEnv : StatusBlind softErrorEnv := by
  constructor
  · intro a b _; rfl
  · intro a b name h
    have hns := ((sameObject_iff a b).1 h).2.1
    simp [softErrorEnv, okEnv, hns]
  · intro a b _; rfl
  · intro t a b _; rfl
  · intro a b h
    have hn := ((sameObject_iff a b).1 h).1
    have hns := ((sameObject_iff a b).1 h).2.1
    simp [softErrorEnv, okEnv, hn, hns]
  · intro a b names _; rfl
  · intro a b d _; rfl
  · intro a b t tls cls h
    have hn := ((sameObject_iff a b).1 h).1
    simp [softErrorEnv, okEnv, hn]
  · intro a b d _; rfl
  · intro cs rs
    simp [softErrorEnv, okEnv, RouteStatus.withConditions]

/-- Counterexample to C12: `testRoute` and `staleRoute` differ only in their
status and are reconciled with the same collaborators, which do not read the
status and report a soft target error; both passes return nil, yet the
resulting statuses differ: the pass on `staleRoute` keeps the resolved targets,
the address and the observed generation it started with. -/
theorem status_survives_soft_target_error :
    sameObject testRoute staleRoute ∧
      testRoute.Status.Conditions = staleRoute.Status.Conditions ∧
      StatusBlind softErrorEnv ∧
      (reconcile softErrorEnv testRoute []).map (fun out => out.1) = some none ∧
      (reconcile softErrorEnv staleRoute []).map (fun out => out.1) = some none ∧
      (reconcile softErrorEnv testRoute []).map (fun out => out.2.1.Status) ≠
        (reconcile softErrorEnv staleRoute []).map (fun out => out.2.1.Status) ∧
      (reconcile softErrorEnv staleRoute []).map
          (fun out => (out.2.1.Status.Traffic, out.2.1.Status.Address,
            out.2.1.Status.ObservedGeneration)) =
        some (staleStatus.Traffic, staleStatus.Address, staleStatus.ObservedGeneration) ∧
      (reconcile softErrorEnv testRoute []).map
          (fun out => (out.2.1.Status.Traffic, out.2.1.Status.Address,
            out.2.1.Status.ObservedGeneration)) =
        some ([], none, 0) :=
  ⟨by unfold sameObject; decide, by decide, statusBlind_softErrorEnv, by decide, by decide,
    by decide, by decide, by decide⟩

/-- A pass that returned nil and logged `updatePlaceholderServices` ran to
completion. -/
theorem completePass_of_log (env : Env) (r : Route) (tr : Trace) (r' : Route) (tr' : Trace)
    (h : reconcile env r tr = some (none, r', tr'))
    (hc : ∃ ev ∈ tr'.drop tr.length, ev.call = Call.updatePlaceholderServices) :
    CompletePass env r tr r' := by
  obtain ⟨a, b, c, rfl, ha, -, hcase⟩ := reconcile_exits env r tr none r' tr' h
  rcases hcase with ⟨rfl, hb⟩ | ⟨r5, -, -, hres⟩
  · exfalso
    obtain ⟨ev, hev, hcall⟩ := hc
    have hdrop : (tr ++ a ++ b ++ []).drop tr.length = a ++ b := by
      simp [List.append_assoc]
    rw [hdrop] at hev
    rcases List.mem_append.1 hev with h1 | h1
    · have := ha ev h1
      rw [hcall] at this
      simp [callsBeforeFinalizer] at this
    · rcases hb with rfl | ⟨r5, err, -, hres, -⟩
      · exact absurd h1 (List.not_mem_nil _)
      · exact absurd hres (by simp)
  · rcases hres with ⟨err, herr⟩ | ⟨-, hcomplete⟩
    · exact absurd herr (by simp)
    · exact hcomplete

/-- A `configureTraffic` that returned a configuration: the resolver returned
it without error, and the status got the targets of the configuration and the
traffic-assigned condition. -/
theorem configureTraffic_ok_inv (env : Env) (r : Route) (tr : Trace) (t : Config)
    (r4 : Route) (tr4 : Trace)
    (h : configureTraffic env r tr = ((some t, none), r4, tr4)) :
    env.BuildTrafficConfiguration r = BuildResult.ok t ∧
    ∃ targets, env.GetRevisionTrafficTargets t r = Result.ok targets ∧
      r4 = r.withStatus
        ({ r.Status with Traffic := targets }.withConditions env.MarkTrafficAssigned) := by
  unfold configureTraffic at h
  split at h
  · split at h
    · simp at h
    · split at h <;> simp at h
  · rename_i t0 hb
    split at h
    · simp at h
    · split at h
      · simp at h
      · rename_i targets hg
        simp only [Prod.mk.injEq, Option.some.injEq, and_true] at h
        obtain ⟨rfl, rfl, -⟩ := h
        exact ⟨hb, targets, hg, rfl⟩

/-- The loop body on two statuses with the same primary URL and targets gives
the same primary URL and targets, and the same conditions when the conditions
were the same. -/
theorem applyCertificate_congr (env : Env) (host : String) (s1 s2 s1' s2' : RouteStatus)
    (c : Certificate) (h1 : applyCertificate env host s1 c = some s1')
    (h2 : applyCertificate env host s2 c = some s2')
    (hurl : s1.URL = s2.URL) (htraffic : s1.Traffic = s2.Traffic) :
    s1'.URL = s2'.URL ∧ s1'.Traffic = s2'.Traffic ∧
    (s1.Conditions = s2.Conditions → s1'.Conditions = s2'.Conditions) := by
  unfold applyCertificate at h1 h2
  cases hr : c.IsReady <;> by_cases hc : host ∈ c.DNSNames <;>
    simp only [hr, hc, RouteStatus.withConditions, setTargetsScheme, if_true, if_false,
      Bool.false_eq_true] at h1 h2
  · simp only [Option.some.injEq] at h1 h2
    subst h1 h2
    exact ⟨rfl, by simp [htraffic], fun hcs => by simp [hcs]⟩
  · simp only [Option.some.injEq] at h1 h2
    subst h1 h2
    exact ⟨hurl, by simp [htraffic], fun hcs => by simp [hcs]⟩
  · cases hu1 : s1.URL with
    | none => simp [hu1] at h1
    | some u =>
      have hu2 : s2.URL = some u := by rw [← hurl]; exact hu1
      simp only [hu1, Option.some.injEq] at h1
      simp only [hu2, Option.some.injEq] at h2
      subst h1 h2
      exact ⟨rfl, by simp [htraffic], fun hcs => by simp [hcs]⟩
  · simp only [Option.some.injEq] at h1 h2
    subst h1 h2
    exact ⟨hurl, by simp [htraffic], fun hcs => by simp [hcs]⟩

/-- The loop bodies of a list of certificates on two statuses with the same
primary URL and targets. -/
theorem applyCertificates_congr (env : Env) (host : String) (cs : List Certificate) :
    ∀ (s1 s2 s1' s2' : RouteStatus), applyCertificates env host cs s1 = some s1' →
      applyCertificates env host cs s2 = some s2' →
      s1.URL = s2.URL → s1.Traffic = s2.Traffic →
      s1'.URL = s2'.URL ∧ s1'.Traffic = s2'.Traffic ∧
      (s1.Conditions = s2.Conditions → s1'.Conditions = s2'.Conditions) := by
  induction cs with
  | nil =>
    intro s1 s2 s1' s2' h1 h2 hurl htraffic
    simp only [applyCertificates, Option.some.injEq] at h1 h2
    subst h1 h2
    exact ⟨hurl, htraffic, id⟩
  | cons c rest ih =>
    intro s1 s2 s1' s2' h1 h2 hurl htraffic
    unfold applyCertificates at h1 h2
    cases ha1 : applyCertificate env host s1 c with
    | none => simp [ha1] at h1
    | some m1 =>
      cases ha2 : applyCertificate env host s2 c with
      | none => simp [ha2] at h2
      | some m2 =>
        simp only [ha1] at h1
        simp only [ha2] at h2
        obtain ⟨hu, ht, hcs⟩ := applyCertificate_congr env host s1 s2 m1 m2 c ha1 ha2 hurl htraffic
        obtain ⟨hu', ht', hcs'⟩ := ih m1 m2 s1' s2' h1 h2 hu ht
        exact ⟨hu', ht', fun h => hcs' (hcs h)⟩

/-- The loop bodies of a list of certificates leave everything but conditions,
primary URL and targets. -/
theorem applyCertificates_frame (env : Env) (host : String) (cs : List Certificate) :
    ∀ (rs rs' : RouteStatus), applyCertificates env host cs rs = some rs' →
      rs'.ObservedGeneration = rs.ObservedGeneration ∧ rs'.Address = rs.Address ∧
      rs'.DeprecatedDomain = rs.DeprecatedDomain ∧
      rs'.DeprecatedDomainInternal = rs.DeprecatedDomainInternal := by
  induction cs with
  | nil =>
    intro rs rs' h
    simp only [applyCertificates, Option.some.injEq] at h
    subst h
    exact ⟨rfl, rfl, rfl, rfl⟩
  | cons c rest ih =>
    intro rs rs' h
    unfold applyCertificates at h
    cases ha : applyCertificate env host rs c with
    | none => simp [ha] at h
    | some m =>
      simp only [ha] at h
      obtain ⟨h1, h2, h3, h4⟩ := applyCertificate_frame env host rs m c ha
      obtain ⟨g1, g2, g3, g4⟩ := ih m rs' h
      exact ⟨g1.trans h1, g2.trans h2, g3.trans h3, g4.trans h4⟩

/-- Replacing the status of two routes that differ only in their status. -/
theorem sameObject_withStatus (a b : Route) (s t : RouteStatus) (h : sameObject a b) :
    sameObject (a.withStatus s) (b.withStatus t) := by
  rw [sameObject_iff] at h ⊢
  exact h

/-- The desired certificates do not depend on the route status. -/
theorem MakeCertificates_sameObject (a b : Route) (m : List (String × String))
    (h : sameObject a b) : MakeCertificates a m = MakeCertificates b m := by
  obtain ⟨hn, hns, hu, -⟩ := (sameObject_iff a b).1 h
  simp [MakeCertificates, certificateName, hn, hns, hu]

/-- Two returning runs of the loop of `tls` on routes that differ only in their
status, with a certificate reconciler that does not read the status: the same
bindings, and the statuses are the loop bodies of the same certificates. -/
theorem tlsLoop_blind (env : Env) (host : String)
    (hrc : ∀ a b d, sameObject a b → env.reconcileCertificate a d = env.reconcileCertificate b d)
    (desired : List Certificate) :
    ∀ (a b : Route) (acc : List IngressTLS) (tra trb : Trace)
      (ta tb : Option (List IngressTLS)) (a' b' : Route) (tra' trb' : Trace),
      sameObject a b →
      tlsLoop env host desired a acc tra = some ((ta, none), a', tra') →
      tlsLoop env host desired b acc trb = some ((tb, none), b', trb') →
      ta = tb ∧ sameObject a' b' ∧
      ∃ certs, applyCertificates env host certs a.Status = some a'.Status ∧
        applyCertificates env host certs b.Status = some b'.Status := by
  induction desired with
  | nil =>
    intro a b acc tra trb ta tb a' b' tra' trb' hsame ha hb
    simp only [tlsLoop, Option.some.injEq, Prod.mk.injEq, and_true] at ha hb
    obtain ⟨rfl, rfl, -⟩ := ha
    obtain ⟨rfl, rfl, -⟩ := hb
    exact ⟨rfl, hsame, [], rfl, rfl⟩
  | cons d rest ih =>
    intro a b acc tra trb ta tb a' b' tra' trb' hsame ha hb
    unfold tlsLoop at ha hb
    have hcert := hrc a b d hsame
    cases hca : env.reconcileCertificate a d with
    | error err => simp [hca] at ha
    | ok cert =>
      have hcb : env.reconcileCertificate b d = Result.ok cert := by rw [← hcert]; exact hca
      simp only [hca] at ha
      simp only [hcb] at hb
      cases hpa : applyCertificate env host a.Status cert with
      | none => simp [hpa] at ha
      | some sa =>
        cases hpb : applyCertificate env host b.Status cert with
        | none => simp [hpb] at hb
        | some sb =>
          simp only [hpa] at ha
          simp only [hpb] at hb
          obtain ⟨ht, hs, certs, hA, hB⟩ := ih _ _ _ _ _ _ _ _ _ _ _
            (sameObject_withStatus a b sa sb hsame) ha hb
          refine ⟨ht, hs, cert :: certs, ?_, ?_⟩
          · simp only [applyCertificates, hpa]
            exact hA
          · simp only [applyCertificates, hpb]
            exact hB

/-- Two returning runs of `tls` on routes that differ only in their status,
with collaborators that do not read the status. -/
theorem tls_blind (env : Env) (hblind : StatusBlind env) (host : String) (a b : Route)
    (traffic : Config) (tra trb : Trace) (ta tb : Option (List IngressTLS)) (a' b' : Route)
    (tra' trb' : Trace) (hsame : sameObject a b)
    (ha : tls env host a traffic tra = some ((ta, none), a', tra'))
    (hb : tls env host b traffic trb = some ((tb, none), b', trb')) :
    ta = tb ∧ sameObject a' b' ∧
    ∃ certs, applyCertificates env host certs a.Status = some a'.Status ∧
      applyCertificates env host certs b.Status = some b'.Status := by
  unfold tls at ha hb
  have hlocal := hblind.IsClusterLocal a b hsame
  rw [← hlocal] at hb
  split at ha
  · rename_i hpol
    simp only [hpol, if_true, Option.some.injEq, Prod.mk.injEq, and_true] at ha hb
    obtain ⟨rfl, rfl, -⟩ := ha
    obtain ⟨rfl, rfl, -⟩ := hb
    exact ⟨rfl, hsame, [], rfl, rfl⟩
  · rename_i hpol
    simp only [hpol, if_false] at hb
    dsimp only at ha hb
    have hdom := hblind.GetAllDomainsAndTags a b (getTrafficNames traffic.Targets) hsame
    cases hga : env.GetAllDomainsAndTags a (getTrafficNames traffic.Targets) with
    | error err => simp [hga] at ha
    | ok m =>
      have hgb : env.GetAllDomainsAndTags b (getTrafficNames traffic.Targets) = Result.ok m := by
        rw [← hdom]; exact hga
      simp only [hga] at ha
      simp only [hgb, ← MakeCertificates_sameObject a b m hsame] at hb
      exact tlsLoop_blind env host hblind.reconcileCertificate _ a b [] _ _ ta tb a' b' _ _
        hsame ha hb

/-- Two passes that ran to completion, on routes that differ only in their
status and with collaborators that do not read the status, end with statuses
that agree on every field but the conditions, and with equal statuses when
the two routes started with the same conditions. -/
theorem completePass_blind (env : Env) (hblind : StatusBlind env) (a b : Route)
    (tra trb : Trace) (a' b' : Route) (hsame : sameObject a b)
    (ha : CompletePass env a tra a') (hb : CompletePass env b trb b') :
    a'.Status.withConditions (fun _ => []) = b'.Status.withConditions (fun _ => []) ∧
    (a.Status.Conditions = b.Status.Conditions → a'.Status = b'.Status) := by
  obtain ⟨host, traffic, r4a, tr4a, tr7a, tr8a, servicesa, tlsva, r8a, desireda, cia,
    -, -, hdna, hcta, -, -, htlsa, hmka, hrca, -, hea⟩ := ha
  obtain ⟨hostb, trafficb, r4b, tr4b, tr7b, tr8b, servicesb, tlsvb, r8b, desiredb, cib,
    -, -, hdnb, hctb, -, -, htlsb, hmkb, hrcb, -, heb⟩ := hb
  have hf := (sameObject_iff a b).1 hsame
  -- after defaulting
  have hsame2 : sameObject (applyDefaults env a) (applyDefaults env b) := by
    rw [sameObject_iff]
    simp only [applyDefaults, Route.withStatus]
    obtain ⟨h1, h2, h3, h4, h5, h6, h7, h8, h9, h10⟩ := hf
    exact ⟨h1, h2, h3, h4, h5, h6, h7, h8, h9, by rw [h10]⟩
  have hname : (applyDefaults env a).Name = (applyDefaults env b).Name :=
    ((sameObject_iff _ _).1 hsame2).1
  have hhost : host = hostb := by
    rw [hblind.DomainNameFromTemplate _ _ _ hsame2, hname, hdnb] at hdna
    simpa using hdna.symm
  subst hhost
  have hsame3 : sameObject (setStatusURL (applyDefaults env a) host)
      (setStatusURL (applyDefaults env b) host) :=
    sameObject_withStatus _ _ _ _ hsame2
  -- after `configureTraffic`
  obtain ⟨hba, targetsa, hga, hr4a⟩ := configureTraffic_ok_inv env _ _ _ _ _ hcta
  obtain ⟨hbb, targetsb, hgb, hr4b⟩ := configureTraffic_ok_inv env _ _ _ _ _ hctb
  have htraffic : traffic = trafficb := by
    rw [hblind.BuildTrafficConfiguration _ _ hsame3, hbb] at hba
    simpa using hba.symm
  subst htraffic
  have htargets : targetsa = targetsb := by
    rw [hblind.GetRevisionTrafficTargets _ _ _ hsame3, hgb] at hga
    simpa using hga.symm
  subst htargets
  have hsame4 : sameObject r4a r4b := by
    rw [hr4a, hr4b]
    exact sameObject_withStatus _ _ _ _ hsame3
  have hk8s := hblind.K8sServiceFullname r4a r4b hsame4
  have hsame5 : sameObject (setStatusAddress env r4a) (setStatusAddress env r4b) :=
    sameObject_withStatus _ _ _ _ hsame4
  -- after `tls`
  obtain ⟨htlsv, hsame8, certs, hAa, hAb⟩ :=
    tls_blind env hblind host _ _ traffic _ _ _ _ _ _ _ _ hsame5 htlsa htlsb
  subst htlsv
  have hurl5 : (setStatusAddress env r4a).Status.URL = (setStatusAddress env r4b).Status.URL := by
    rw [hr4a, hr4b]; rfl
  have htr5 : (setStatusAddress env r4a).Status.Traffic =
      (setStatusAddress env r4b).Status.Traffic := by
    rw [hr4a, hr4b]; rfl
  have hcs5 : a.Status.Conditions = b.Status.Conditions →
      (setStatusAddress env r4a).Status.Conditions =
        (setStatusAddress env r4b).Status.Conditions := by
    intro hcs
    rw [hr4a, hr4b]
    simp [setStatusAddress, setStatusURL, applyDefaults, Route.withStatus,
      RouteStatus.withConditions, hcs]
  obtain ⟨hurl8, htr8, hcs8⟩ := applyCertificates_congr env host certs _ _ _ _ hAa hAb hurl5 htr5
  obtain ⟨-, hada, hdda, hdia⟩ := applyCertificates_frame env host certs _ _ hAa
  obtain ⟨-, hadb, hddb, hdib⟩ := applyCertificates_frame env host certs _ _ hAb
  have hadr : r8a.Status.Address = r8b.Status.Address := by
    rw [hada, hadb]
    simp [setStatusAddress, Route.withStatus, hk8s]
  have hdd : r8a.Status.DeprecatedDomain = r8b.Status.DeprecatedDomain := by
    rw [hdda, hddb, hr4a, hr4b]; rfl
  have hdi : r8a.Status.DeprecatedDomainInternal = r8b.Status.DeprecatedDomainInternal := by
    rw [hdia, hdib]; rfl
  have hgen : r8a.Generation = r8b.Generation := ((sameObject_iff _ _).1 hsame8).2.2.2.2.1
  have hann : r8a.Annotations = r8b.Annotations :=
    ((sameObject_iff _ _).1 hsame8).2.2.2.2.2.2.2.2.1
  -- the ClusterIngress
  have hci : cia = cib := by
    have hcls : ingressClassForRoute env r8a = ingressClassForRoute env r8b := by
      simp [ingressClassForRoute, hann]
    rw [hblind.MakeClusterIngress _ _ _ _ _ hsame8, hcls, hmkb] at hmka
    have hdes : desireda = desiredb := by simpa using hmka.symm
    subst hdes
    rw [hblind.reconcileClusterIngress _ _ _ hsame8, hrcb] at hrca
    simpa using hrca.symm
  subst hci
  rw [hea, heb]
  rw [hblind.PropagateClusterIngressStatus cia.Status r8a.Status,
    hblind.PropagateClusterIngressStatus cia.Status r8b.Status]
  refine ⟨?_, ?_⟩
  · simp [Route.withStatus, RouteStatus.withConditions, hurl8, htr8, hadr, hdd, hdi, hgen]
  · intro hcs
    have hc8 := hcs8 (hcs5 hcs)
    simp [Route.withStatus, RouteStatus.withConditions, hurl8, htr8, hadr, hdd, hdi, hgen, hc8]

/-- C12, as amended: for two routes that differ only in their status,
reconciled with the same collaborators, which do not read the route status,
when both passes return nil after running to completion (their logs hold the
`updatePlaceholderServices` call), the two resulting statuses agree on every
field but the conditions (primary URL, resolved targets, address, deprecated
domains, observed generation), are equal when the two routes started with the
same conditions, and record the generation of the route.  A pass that returns
nil early on a soft target error keeps the resolved targets, the address and
the observed generation the route carried. -/
theorem status_recomputed_on_complete_pass (env : Env) (hblind : StatusBlind env)
    (a b : Route) (tra trb : Trace) (a' b' : Route) (tra' trb' : Trace)
    (hsame : sameObject a b)
    (ha : reconcile env a tra = some (none, a', tra'))
    (hb : reconcile env b trb = some (none, b', trb'))
    (hca : ∃ ev ∈ tra'.drop tra.length, ev.call = Call.updatePlaceholderServices)
    (hcb : ∃ ev ∈ trb'.drop trb.length, ev.call = Call.updatePlaceholderServices) :
    a'.Status.withConditions (fun _ => []) = b'.Status.withConditions (fun _ => []) ∧
    (a.Status.Conditions = b.Status.Conditions → a'.Status = b'.Status) ∧
    a'.Status.ObservedGeneration = a.Generation ∧
    b'.Status.ObservedGeneration = b.Generation ∧
    (∀ (env2 : Env) (r : Route) (tr : Trace) (host : String) (t : Option Config)
      (name : String),
      r.DeletionTimestamp = none →
      env2.ConvertUp (applyDefaults env2 r) = none →
      env2.DomainNameFromTemplate (applyDefaults env2 r) (applyDefaults env2 r).Name =
        Result.ok host →
      env2.BuildTrafficConfiguration (setStatusURL (applyDefaults env2 r) host) =
        BuildResult.failed t (Error.target name) →
      (∀ x ∈ trackedObjects t,
        env2.Track (objectRef x) (setStatusURL (applyDefaults env2 r) host) = none) →
      ∃ r' tr', reconcile env2 r tr = some (none, r', tr') ∧
        r'.Status.Traffic = r.Status.Traffic ∧ r'.Status.Address = r.Status.Address ∧
        r'.Status.ObservedGeneration = r.Status.ObservedGeneration) := by
  have hpa := completePass_of_log env a tra a' tra' ha hca
  have hpb := completePass_of_log env b trb b' trb' hb hcb
  obtain ⟨h1, h2⟩ := completePass_blind env hblind a b tra trb a' b' hsame hpa hpb
  have hgen : ∀ (r : Route) (tr : Trace) (r' : Route), CompletePass env r tr r' →
      r'.Status.ObservedGeneration = r.Generation := by
    intro r tr r' hp
    obtain ⟨host, traffic, r4, tr4, tr7, tr8, services, tlsv, r8, desired, ci,
      -, -, -, hct, -, -, htls, -, -, -, he⟩ := hp
    obtain ⟨-, hr4, -⟩ := configureTraffic_log_of_eq env _ tr _ _ _ hct
    obtain ⟨-, -, -, hr8, -⟩ := tls_error_entry env _ _ _ _ _ _ _ htls
    rw [he]
    show r8.Generation = r.Generation
    rw [hr8]
    show r4.Generation = r.Generation
    rw [hr4]
    rfl
  refine ⟨h1, h2, hgen a tra a' hpa, hgen b trb b' hpb, ?_⟩
  intro env2 r tr host t name hdel hcu hdn hbuild htrack
  refine ⟨(setStatusURL (applyDefaults env2 r) host).withStatus
      ((setStatusURL (applyDefaults env2 r) host).Status.withConditions
        (env2.MarkBadTrafficTarget name)),
    tr ++ (trackedObjects t).map
      (fun x => Event.Track (objectRef x) (setStatusURL (applyDefaults env2 r) host)),
    ?_, rfl, rfl, rfl⟩
  simp only [reconcile, hdel, Option.isSome_none, Bool.false_eq_true, if_false, hcu, hdn,
    configureTraffic, hbuild, trackConfig_of_ok env2 _ t tr htrack]

/-- The passes used as witness of C12, evaluated: with collaborators that
succeed, the passes on `testRoute` and on `staleRoute` return nil and log
`updatePlaceholderServices`. -/
theorem reconcile_stale_passes :
    reconcile okEnv testRoute [] = some (none, okOut.2.1, okOut.2.2) ∧
      reconcile okEnv staleRoute [] = some (none, staleOut.2.1, staleOut.2.2) ∧
      (∃ ev ∈ okOut.2.2.drop ([] : Trace).length, ev.call = Call.updatePlaceholderServices) ∧
      (∃ ev ∈ staleOut.2.2.drop ([] : Trace).length,
        ev.call = Call.updatePlaceholderServices) ∧
      staleRoute.Status ≠ testRoute.Status := by
  decide

/-- Witness of C12 as amended: `testRoute` and `staleRoute` carry the same
(empty) conditions and different targets, address and observed generation;
after a pass that runs to completion their statuses are equal. -/
theorem status_recomputed_on_complete_pass_witness :
    sameObject testRoute staleRoute ∧ staleRoute.Status ≠ testRoute.Status ∧
      okOut.2.1.Status = staleOut.2.1.Status ∧
      okOut.2.1.Status.ObservedGeneration = testRoute.Generation :=
  have h := status_recomputed_on_complete_pass okEnv statusBlind_okEnv testRoute staleRoute
    [] [] okOut.2.1 staleOut.2.1 okOut.2.2 staleOut.2.2 (by unfold sameObject; decide)
    reconcile_stale_passes.1 reconcile_stale_passes.2.1 reconcile_stale_passes.2.2.1
    reconcile_stale_passes.2.2.2.1
  ⟨by unfold sameObject; decide, reconcile_stale_passes.2.2.2.2, h.2.1 (by decide), h.2.2.1⟩

/-- The collaborators of `managedEnv` do not read the route status. -/
theorem statusBlind_managedEnv : StatusBlind managedEnv := by
  constructor
  · intro a b _; rfl
  · intro a b name h
    have hns := ((sameObject_iff a b).1 h).2.1
    simp [managedEnv, okEnv, hns]
  · intro a b _; rfl
  · intro t a b _; rfl
  · intro a b h
    have hn := ((sameObject_iff a b).1 h).1
    have hns := ((sameObject_iff a b).1 h).2.1
    simp [managedEnv, okEnv, hn, hns]
  · intro a b names _; rfl
  · intro a b d _; rfl
  · intro a b t tls cls h
    have hn := ((sameObject_iff a b).1 h).1
    simp [managedEnv, okEnv, hn]
  · intro a b d _; rfl
  · intro cs rs
    simp [managedEnv, RouteStatus.withConditions]

/-- The conditions are carried from pass to pass: with automatic TLS disabled
and conditions kept as a set keyed by type, two passes that run to completion
on routes that differ only in their status return nil, yet the route that
started with a failed certificate condition still carries it. -/
theorem conditions_survive_complete_pass :
    sameObject testRoute certConditionRoute ∧ StatusBlind managedEnv ∧
      (reconcile managedEnv testRoute []).map
          (fun out => (out.1, out.2.2.map Event.call, out.2.1.Status.Conditions)) =
        some (none,
          [Call.reconcileTargetRevisions, Call.RoutesPatch, Call.reconcilePlaceholderServices,
            Call.MakeClusterIngress, Call.reconcileClusterIngress,
            Call.updatePlaceholderServices],
          [{ type := "AllTrafficAssigned", status := "True" },
            { type := "IngressReady", status := "True" }]) ∧
      (reconcile managedEnv certConditionRoute []).map
          (fun out => (out.1, out.2.2.map Event.call, out.2.1.Status.Conditions)) =
        some (none,
          [Call.reconcileTargetRevisions, Call.RoutesPatch, Call.reconcilePlaceholderServices,
            Call.MakeClusterIngress, Call.reconcileClusterIngress,
            Call.updatePlaceholderServices],
          [{ type := "CertificateProvisioned", status := "False", message := "route-12345" },
            { type := "AllTrafficAssigned", status := "True" },
            { type := "IngressReady", status := "True" }]) :=
  ⟨by unfold sameObject; decide, statusBlind_managedEnv, by decide, by decide⟩

end RouteReconciler
